import Mathlib

/-!
Verification development for the `gongye_ai_qms` repository: a shallow
embedding in Lean 4 of the post-processing, validation and parsing helpers of
`app_main.py`, `qms/pdf_markdown_extractor.py`, `测试/com.py` and
`测试/markdown_low_token.py`, together with theorems about them.

Modelling conventions
* Python machine floats are modelled by exact rationals (`Rat`), with the
  IEEE-754 double overflow cutoff applied when a decimal literal is parsed
  (values of magnitude at least 2^1024 - 2^970 become infinities, as in
  CPython float conversion). Binary rounding of finite values is not modelled.
* Python dictionaries are association lists; assignment replaces the value
  in place when the key exists and appends otherwise.
* External library calls (BeautifulSoup table extraction, `json.loads`,
  `ast.literal_eval`, the HTTP transport and the extraction pipeline)
  are oracle parameters of the embedded functions.
-/

set_option maxRecDepth 8000

deriving instance DecidableEq for Except

namespace QMS

/-! ## A kernel-reducible constructor for rationals

Core `Rat` arithmetic normalizes through `Nat.gcd`, which is defined by
well-founded recursion and does not reduce in the kernel, so `decide` cannot
evaluate it. `ratMk` rebuilds the same reduced fraction using a fuel-driven
gcd, and bridge lemmas identify it with ordinary division on `Rat`. -/

/-- Fuel-driven Euclidean gcd, mirroring `Nat.gcd`. -/
def myGcdAux : Nat → Nat → Nat → Nat
  | 0, _, b => b
  | f + 1, a, b =>
    match a with
    | 0 => b
    | _ + 1 => myGcdAux f (b % a) a

/-- Kernel-reducible gcd. -/
def myGcd (a b : Nat) : Nat := myGcdAux (a + 1) a b

theorem myGcdAux_eq_gcd : ∀ f a b, a ≤ f → myGcdAux f a b = Nat.gcd a b := by
  intro f
  induction f with
  | zero =>
    intro a b ha
    interval_cases a
    simp [myGcdAux]
  | succ f ih =>
    intro a b ha
    match a with
    | 0 => simp [myGcdAux]
    | k + 1 =>
      have hlt : b % (k + 1) < k + 1 := Nat.mod_lt b (Nat.succ_pos k)
      have hle : b % (k + 1) ≤ f := by omega
      calc myGcdAux (f + 1) (k + 1) b = myGcdAux f (b % (k + 1)) (k + 1) := rfl
        _ = Nat.gcd (b % (k + 1)) (k + 1) := ih _ _ hle
        _ = Nat.gcd (k + 1) b := (Nat.gcd_rec (k + 1) b).symm

theorem myGcd_eq_gcd (a b : Nat) : myGcd a b = Nat.gcd a b :=
  myGcdAux_eq_gcd (a + 1) a b (Nat.le_succ a)

theorem myGcd_pos (n : Int) (d : Nat) (hd : d ≠ 0) : 0 < myGcd n.natAbs d := by
  rw [myGcd_eq_gcd]
  exact Nat.gcd_pos_of_pos_right _ (Nat.pos_of_ne_zero hd)

theorem myGcd_dvd_int (n : Int) (d : Nat) : ((myGcd n.natAbs d : Nat) : Int) ∣ n := by
  rw [myGcd_eq_gcd]
  exact Int.natAbs_dvd_natAbs.mp (by simpa using Nat.gcd_dvd_left n.natAbs d)

theorem myGcd_dvd_den (n : Int) (d : Nat) : myGcd n.natAbs d ∣ d := by
  rw [myGcd_eq_gcd]
  exact Nat.gcd_dvd_right _ _

theorem ratMk_den_nz (n : Int) (d : Nat) (hd : d ≠ 0) : d / myGcd n.natAbs d ≠ 0 := by
  have h1 := Nat.le_of_dvd (Nat.pos_of_ne_zero hd) (myGcd_dvd_den n d)
  have h2 := Nat.div_pos h1 (myGcd_pos n d hd)
  omega

theorem ratMk_reduced (n : Int) (d : Nat) (hd : d ≠ 0) :
    (n / ((myGcd n.natAbs d : Nat) : Int)).natAbs.Coprime (d / myGcd n.natAbs d) := by
  have habs : (n / ((myGcd n.natAbs d : Nat) : Int)).natAbs = n.natAbs / myGcd n.natAbs d := by
    rw [Int.natAbs_ediv _ _ (myGcd_dvd_int n d)]
    simp
  rw [habs, myGcd_eq_gcd]
  exact Nat.coprime_div_gcd_div_gcd
    (Nat.gcd_pos_of_pos_right _ (Nat.pos_of_ne_zero hd))

/-- Build the reduced rational `n / d` without well-founded recursion
(`0` when `d = 0`, matching `Rat.divInt`). -/
def ratMk (n : Int) (d : Nat) : Rat :=
  if hd : d = 0 then 0
  else Rat.mk' (n / ((myGcd n.natAbs d : Nat) : Int)) (d / myGcd n.natAbs d)
    (ratMk_den_nz n d hd) (ratMk_reduced n d hd)

theorem ratMk_eq_divInt (n : Int) (d : Nat) : ratMk n d = Rat.divInt n d := by
  by_cases hd : d = 0
  · subst hd
    simp [ratMk, Rat.divInt_zero]
  · rw [ratMk, dif_neg hd, Rat.mk'_eq_divInt]
    have hgz : ((myGcd n.natAbs d : Nat) : Int) ≠ 0 := by
      exact_mod_cast (myGcd_pos n d hd).ne'
    have hn : n = (n / ((myGcd n.natAbs d : Nat) : Int)) * (myGcd n.natAbs d : Nat) :=
      (Int.ediv_mul_cancel (myGcd_dvd_int n d)).symm
    have hd2 : (d : Int) = ((d / myGcd n.natAbs d : Nat) : Int) * (myGcd n.natAbs d : Nat) := by
      rw [← Nat.cast_mul]
      exact_mod_cast (Nat.div_mul_cancel (myGcd_dvd_den n d)).symm
    calc Rat.divInt (n / ((myGcd n.natAbs d : Nat) : Int)) ((d / myGcd n.natAbs d : Nat) : Int)
        = Rat.divInt ((n / ((myGcd n.natAbs d : Nat) : Int)) * (myGcd n.natAbs d : Nat))
            (((d / myGcd n.natAbs d : Nat) : Int) * (myGcd n.natAbs d : Nat)) :=
          (Rat.divInt_mul_right hgz).symm
      _ = Rat.divInt n d := by rw [← hn, ← hd2]

theorem ratMk_eq_div (n : Int) (d : Nat) : ratMk n d = (n : Rat) / (d : Rat) := by
  rw [ratMk_eq_divInt, Rat.divInt_eq_div]
  norm_cast

/-- Kernel-reducible addition on `Rat`. -/
def rAdd (a b : Rat) : Rat := ratMk (a.num * b.den + b.num * a.den) (a.den * b.den)

/-- Kernel-reducible subtraction on `Rat`. -/
def rSub (a b : Rat) : Rat := ratMk (a.num * b.den - b.num * a.den) (a.den * b.den)

/-- Kernel-reducible multiplication on `Rat`. -/
def rMul (a b : Rat) : Rat := ratMk (a.num * b.num) (a.den * b.den)

theorem rAdd_eq (a b : Rat) : rAdd a b = a + b := by
  rw [rAdd, ratMk_eq_div]
  have h : a + b = ((a.num * b.den + b.num * a.den : Int) : Rat) / ((a.den * b.den : Nat) : Rat) := by
    conv_lhs => rw [← Rat.num_div_den a, ← Rat.num_div_den b]
    push_cast
    field_simp
    try ring
  rw [h]

theorem rSub_eq (a b : Rat) : rSub a b = a - b := by
  rw [rSub, ratMk_eq_div]
  have h : a - b = ((a.num * b.den - b.num * a.den : Int) : Rat) / ((a.den * b.den : Nat) : Rat) := by
    conv_lhs => rw [← Rat.num_div_den a, ← Rat.num_div_den b]
    push_cast
    field_simp
    try ring
  rw [h]

theorem rMul_eq (a b : Rat) : rMul a b = a * b := by
  rw [rMul, ratMk_eq_div]
  have h : a * b = ((a.num * b.num : Int) : Rat) / ((a.den * b.den : Nat) : Rat) := by
    conv_lhs => rw [← Rat.num_div_den a, ← Rat.num_div_den b]
    push_cast
    field_simp
    try ring
  rw [h]

/-- Ten to an integer power, kernel-reducible. -/
def ratPow10 (e : Int) : Rat :=
  ratMk ((10 ^ e.toNat : Nat) : Int) (10 ^ (-e).toNat)

theorem ratPow10_eq (e : Int) : ratPow10 e = (10 : Rat) ^ e := by
  rw [ratPow10, ratMk_eq_div]
  cases e with
  | ofNat k =>
    have h1 : (Int.ofNat k).toNat = k := rfl
    have hz : (-(Int.ofNat k)).toNat = 0 := by cases k <;> rfl
    rw [h1, hz]
    push_cast
    norm_num
  | negSucc k =>
    show ((10 ^ (Int.negSucc k).toNat : Nat) : Rat) / ((10 ^ (-(Int.negSucc k)).toNat : Nat) : Rat) = _
    have h1 : (Int.negSucc k).toNat = 0 := rfl
    have h2 : (-(Int.negSucc k)).toNat = k + 1 := rfl
    rw [h1, h2, zpow_negSucc]
    push_cast
    norm_num

/-- Kernel-reducible floor of a rational. -/
def ratFloor (x : Rat) : Int := x.num / (x.den : Int)

theorem ratFloor_eq (x : Rat) : ratFloor x = ⌊x⌋ := by
  rw [Rat.floor_def]
  rfl

/-- Round-half-to-even of a rational to an integer, using only integer
arithmetic (`twice` is twice the fractional part scaled by the denominator). -/
def roundHalfEven (x : Rat) : Int :=
  let f := ratFloor x
  let twice : Int := 2 * (x.num - f * x.den)
  if twice < x.den then f
  else if (x.den : Int) < twice then f + 1
  else if f % 2 = 0 then f else f + 1

theorem roundHalfEven_bounds (x : Rat) :
    ⌊x⌋ ≤ roundHalfEven x ∧ roundHalfEven x ≤ ⌊x⌋ + 1 := by
  rw [roundHalfEven]
  simp only [ratFloor_eq]
  split
  · omega
  · split
    · omega
    · split <;> omega

/-! ## Characters, digits and Python string helpers -/

/-- Characters treated as whitespace by Python `str.strip()` and `float()`. -/
def isPyWs (c : Char) : Bool :=
  c = ' ' ∨ c = '\t' ∨ c = '\n' ∨ c = '\r' ∨ c = '\x0b' ∨ c = '\x0c'

/-- The character `' '` or `'\t'` (the class `[ \t]`). -/
def isSpTab (c : Char) : Bool := c = ' ' ∨ c = '\t'

/-- Python `str.strip()` on a character list. -/
def stripL (l : List Char) : List Char :=
  ((l.dropWhile isPyWs).reverse.dropWhile isPyWs).reverse

/-- Python `str.strip()`. -/
def pyStrip (s : String) : String := String.mk (stripL s.toList)

/-- Decimal digit character for `d < 10`. -/
def digitChar (d : Nat) : Char := Char.ofNat (48 + d)

/-- Fuel-driven most-significant-first decimal digits of a natural number.
Structural recursion on the fuel keeps it kernel-reducible. -/
def natDigitsAux : Nat → Nat → List Char
  | 0, _ => []
  | f + 1, n => if n < 10 then [digitChar n]
      else natDigitsAux f (n / 10) ++ [digitChar (n % 10)]

/-- Decimal digit string of a natural number. -/
def natDigits (n : Nat) : List Char := natDigitsAux (n + 1) n

/-- Fuel-driven count of decimal digits. -/
def digCountAux : Nat → Nat → Nat
  | 0, _ => 0
  | f + 1, n => if n < 10 then 1 else digCountAux f (n / 10) + 1

/-- Number of decimal digits of a natural number (`1` for `0`). -/
def digCount (n : Nat) : Nat := digCountAux (n + 1) n

/-- Value of a most-significant-first digit list. -/
def natFromDigits (ds : List Char) : Nat :=
  ds.foldl (fun n c => n * 10 + (c.toNat - 48)) 0

theorem digCountAux_bounds :
    ∀ f n, 1 ≤ n → n ≤ f → 10 ^ (digCountAux f n - 1) ≤ n ∧ n < 10 ^ digCountAux f n := by
  intro f
  induction f with
  | zero => intro n h1 h2; omega
  | succ f ih =>
    intro n h1 h2
    rw [digCountAux]
    by_cases hn : n < 10
    · simp only [if_pos hn]
      constructor
      · simpa using h1
      · simpa using hn
    · simp only [if_neg hn]
      have h10 : 10 ≤ n := by omega
      have hq1 : 1 ≤ n / 10 := by omega
      have hqf : n / 10 ≤ f := by omega
      obtain ⟨hlo, hhi⟩ := ih (n / 10) hq1 hqf
      set d := digCountAux f (n / 10) with hd
      have hd1 : 1 ≤ d := by
        by_contra hcon
        have hz : d = 0 := by omega
        rw [hz] at hhi
        omega
      constructor
      · have hsplit : 10 ^ (d + 1 - 1) = 10 ^ (d - 1) * 10 := by
          have : d + 1 - 1 = (d - 1) + 1 := by omega
          rw [this, pow_succ]
        rw [hsplit]
        calc 10 ^ (d - 1) * 10 ≤ (n / 10) * 10 := Nat.mul_le_mul_right 10 hlo
          _ ≤ n := Nat.div_mul_le_self n 10
      · have h1' : n < (n / 10) * 10 + 10 := by omega
        calc n < (n / 10) * 10 + 10 := h1'
          _ ≤ (10 ^ d - 1) * 10 + 10 := by
              have hle : n / 10 ≤ 10 ^ d - 1 := by omega
              exact Nat.add_le_add_right (Nat.mul_le_mul_right 10 hle) 10
          _ = 10 ^ d * 10 := by
              have hpos : 1 ≤ 10 ^ d := Nat.one_le_pow _ _ (by norm_num)
              omega
          _ = 10 ^ (d + 1) := (pow_succ 10 d).symm

theorem digCount_bounds (n : Nat) (h : 1 ≤ n) :
    10 ^ (digCount n - 1) ≤ n ∧ n < 10 ^ digCount n :=
  digCountAux_bounds (n + 1) n h (Nat.le_succ n)

/-- Integer part of the base-10 logarithm of a positive rational:
the unique `e` with `10^e ≤ a < 10^(e+1)`. -/
def ratLog10 (a : Rat) : Int :=
  let e0 : Int := (digCount a.num.natAbs : Int) - (digCount a.den : Int)
  if ratPow10 e0 ≤ a then e0 else e0 - 1

theorem ratLog10_spec (a : Rat) (ha : 0 < a) :
    (10:Rat) ^ (ratLog10 a) ≤ a ∧ a < (10:Rat) ^ (ratLog10 a + 1) := by
  have hnum : 0 < a.num := Rat.num_pos.mpr ha
  simp only [ratLog10, ratPow10_eq]
  set n : Nat := a.num.natAbs with hn
  set d : Nat := a.den with hd
  set Ln : Nat := digCount n with hLn
  set Ld : Nat := digCount d with hLd
  set e0 : Int := (Ln : Int) - (Ld : Int) with he0
  have hn1 : 1 ≤ n := by
    have := Int.natAbs_pos.mpr hnum.ne'
    omega
  have hd1 : 1 ≤ d := Nat.pos_of_ne_zero a.den_nz
  obtain ⟨hnlo, hnhi⟩ := digCount_bounds n hn1
  obtain ⟨hdlo, hdhi⟩ := digCount_bounds d hd1
  rw [← hLn] at hnlo hnhi
  rw [← hLd] at hdlo hdhi
  have hLn1 : 1 ≤ Ln := by
    by_contra hcon
    have hz : Ln = 0 := by omega
    rw [hz] at hnhi
    omega
  have hLd1 : 1 ≤ Ld := by
    by_contra hcon
    have hz : Ld = 0 := by omega
    rw [hz] at hdhi
    omega
  have hdR : (0:Rat) < (d:Rat) := by positivity
  have haeq : a = (n:Rat) / (d:Rat) := by
    have h1 : ((n:Int):Rat) = (a.num : Rat) := by
      rw [hn, Int.natAbs_of_nonneg hnum.le]
    rw [← Rat.num_div_den a, hd]
    congr 1
    exact_mod_cast h1.symm
  have hten : (10:Rat) ≠ 0 := by norm_num
  have hA : a < (10:Rat) ^ (e0 + 1) := by
    rw [haeq, div_lt_iff₀ hdR]
    have step1 : (n:Rat) < (10:Rat) ^ (Ln : Int) := by
      rw [zpow_natCast]
      exact_mod_cast hnhi
    have step2 : (10:Rat) ^ (Ln : Int) ≤ (10:Rat) ^ (e0 + 1) * (d:Rat) := by
      have hdlow : ((10:Rat)) ^ ((Ld - 1 : Nat)) ≤ (d:Rat) := by exact_mod_cast hdlo
      have hsplit : (10:Rat) ^ (Ln : Int) = (10:Rat) ^ (e0 + 1) * (10:Rat) ^ ((Ld - 1 : Nat) : Int) := by
        rw [← zpow_add₀ hten]
        congr 1
        have hc : ((Ld - 1 : Nat) : Int) = (Ld : Int) - 1 := by omega
        rw [hc, he0]
        ring
      rw [hsplit]
      apply mul_le_mul_of_nonneg_left _ (by positivity)
      rw [zpow_natCast]
      exact hdlow
    exact lt_of_lt_of_le step1 step2
  have hB : (10:Rat) ^ (e0 - 1) ≤ a := by
    rw [haeq, le_div_iff₀ hdR]
    have step2 : (10:Rat) ^ (e0 - 1) * (d:Rat) ≤ (10:Rat) ^ ((Ln - 1 : Nat) : Int) := by
      have hdhigh : (d:Rat) ≤ (10:Rat) ^ ((Ld : Nat)) := by
        exact_mod_cast hdhi.le
      have hsplit : (10:Rat) ^ ((Ln - 1 : Nat) : Int) = (10:Rat) ^ (e0 - 1) * (10:Rat) ^ ((Ld : Nat) : Int) := by
        rw [← zpow_add₀ hten]
        congr 1
        have hc : ((Ln - 1 : Nat) : Int) = (Ln : Int) - 1 := by omega
        rw [hc, he0]
        ring
      rw [hsplit]
      apply mul_le_mul_of_nonneg_left _ (by positivity)
      rw [zpow_natCast]
      exact hdhigh
    have step1 : (10:Rat) ^ ((Ln - 1 : Nat) : Int) ≤ (n:Rat) := by
      rw [zpow_natCast]
      exact_mod_cast hnlo
    exact le_trans step2 step1
  split_ifs with hsel
  · exact ⟨hsel, hA⟩
  · constructor
    · exact hB
    · have hfix : e0 - 1 + 1 = e0 := by ring
      rw [hfix]
      exact lt_of_not_ge hsel

/-! ## Python floats: the `float()` conversion and `'.2E'` formatting -/

/-- Model of a CPython `float`: an exact rational, or one of the
non-finite values. -/
inductive PyFloat where
  | finite (q : Rat)
  | nan
  | inf
  | neginf
deriving DecidableEq

/-- Smallest magnitude at which CPython decimal-to-float conversion
overflows to an infinity: `2^1024 - 2^970`. -/
def pyOverflowBound : Rat := ((2 ^ 1024 - 2 ^ 970 : Nat) : Rat)

/-- Apply the IEEE-754 double overflow cutoff to an exact parsed value. -/
def clampFloat (v : Rat) : PyFloat :=
  if pyOverflowBound ≤ |v| then (if 0 < v then .inf else .neginf) else .finite v

/-- Exact rational value `sgn * ip.fp * 10^ex` of the parts of a decimal
literal. -/
def ratOfParts (sgn : Int) (ip fp : List Char) (ex : Int) : Rat :=
  ratMk (sgn * (natFromDigits (ip ++ fp) : Int) * ((10 ^ ex.toNat : Nat) : Int))
    (10 ^ fp.length * 10 ^ (-ex).toNat)

/-- The decimal part of the CPython `float()` grammar:
`digits [. digits] [(e|E) [sign] digits]`, at least one mantissa digit,
nothing left over. Digit-group underscores and non-ASCII digits are not
modelled. -/
def parseDecimal (sgn : Int) (cs : List Char) : Option PyFloat :=
  let ip := cs.takeWhile Char.isDigit
  let r1 := cs.drop ip.length
  let fp := match r1 with
    | '.' :: tl => tl.takeWhile Char.isDigit
    | _ => []
  let r2 := match r1 with
    | '.' :: tl => tl.drop ((tl.takeWhile Char.isDigit).length)
    | _ => r1
  if ip = [] ∧ fp = [] then none
  else
    match r2 with
    | [] => some (clampFloat (ratOfParts sgn ip fp 0))
    | e :: tl =>
      if e = 'e' ∨ e = 'E' then
        let esgn : Int := match tl with
          | '+' :: _ => 1 | '-' :: _ => -1 | _ => 1
        let tl2 := match tl with
          | '+' :: t => t | '-' :: t => t | _ => tl
        let ed := tl2.takeWhile Char.isDigit
        if ed = [] ∨ tl2.drop ed.length ≠ [] then none
        else some (clampFloat (ratOfParts sgn ip fp (esgn * (natFromDigits ed : Int))))
      else none

/-- Model of CPython `float(s)` for a string argument: strip whitespace,
optional sign, then `inf`/`infinity`/`nan` (case-insensitive) or a decimal
literal; `none` models `ValueError`. -/
def pyFloatOfString (s : String) : Option PyFloat :=
  let cs := stripL s.toList
  let sgn : Int := match cs with
    | '+' :: _ => 1 | '-' :: _ => -1 | _ => 1
  let cs2 := match cs with
    | '+' :: t => t | '-' :: t => t | _ => cs
  let lower := cs2.map Char.toLower
  if lower = "inf".toList ∨ lower = "infinity".toList then
    some (if sgn = 1 then .inf else .neginf)
  else if lower = "nan".toList then some .nan
  else parseDecimal sgn cs2

/-- Python `abs(x) > t` for a float `x` and positive finite threshold `t`
(false for NaN, true for both infinities). -/
def pyAbsGt (x : PyFloat) (t : Rat) : Bool :=
  match x with
  | .finite q => t < |q|
  | .nan => false
  | .inf => true
  | .neginf => true

/-- Two-digit zero-padded decimal rendering (for the fraction field). -/
def pad2 (n : Nat) : List Char := if n < 10 then '0' :: natDigits n else natDigits n

/-- Exponent field rendering: at least two digits, zero-padded. -/
def padE (n : Nat) : List Char :=
  let ds := natDigits n
  if ds.length < 2 then '0' :: ds else ds

/-- Character list of Python `format(q, '.2E')` for a finite nonzero `q`:
mantissa rounded half-to-even to three significant digits. -/
def formatE2core (q : Rat) : List Char :=
  let a := |q|
  let e := ratLog10 a
  let N := roundHalfEven (rMul a (ratPow10 (2 - e)))
  let Nn : Nat := if N = 1000 then 100 else N.toNat
  let en : Int := if N = 1000 then e + 1 else e
  (if q < 0 then ['-'] else []) ++ natDigits (Nn / 100) ++ '.' :: pad2 (Nn % 100)
    ++ 'E' :: (if en < 0 then '-' else '+') :: padE en.natAbs

/-- Python `f-string` formatting with format spec `.2E`. -/
def formatE2 : PyFloat → String
  | .finite q => if q = 0 then "0.00E+00" else String.mk (formatE2core q)
  | .nan => "NAN"
  | .inf => "INF"
  | .neginf => "-INF"

/-- Shape check: an optional minus sign, one digit, a point, two digits, an
uppercase `E`, an explicit exponent sign and at least two exponent digits. -/
def isSciE2 (s : String) : Bool :=
  let l0 := s.toList
  let l := if l0.head? = some '-' then l0.tail else l0
  match l with
  | d1 :: c2 :: d2 :: d3 :: c5 :: sg :: rest =>
    d1.isDigit && (c2 = '.') && d2.isDigit && d3.isDigit && (c5 = 'E')
      && (sg = '+' || sg = '-') && decide (2 ≤ rest.length) && rest.all Char.isDigit
  | _ => false

theorem digitChar_isDigit : ∀ d, d < 10 → (digitChar d).isDigit = true := by decide

theorem natDigits_single (n : Nat) (h : n < 10) : natDigits n = [digitChar n] := by
  simp [natDigits, natDigitsAux, h]

theorem natDigitsAux_all_digit :
    ∀ f n, n < f → (natDigitsAux f n).all Char.isDigit = true := by
  intro f
  induction f with
  | zero => intro n h; omega
  | succ f ih =>
    intro n h
    rw [natDigitsAux]
    by_cases hn : n < 10
    · simp [hn, digitChar_isDigit n hn]
    · have h1 : n / 10 < f := by omega
      simp only [if_neg hn, List.all_append]
      rw [ih _ h1]
      simp [digitChar_isDigit (n % 10) (Nat.mod_lt n (by norm_num))]

theorem natDigits_all_digit (n : Nat) : (natDigits n).all Char.isDigit = true :=
  natDigitsAux_all_digit (n + 1) n (Nat.lt_succ_self n)

theorem natDigitsAux_ne_nil : ∀ f n, natDigitsAux (f + 1) n ≠ [] := by
  intro f n
  rw [natDigitsAux]
  by_cases hn : n < 10
  · simp [hn]
  · simp [hn]

theorem natDigits_ne_nil (n : Nat) : natDigits n ≠ [] := natDigitsAux_ne_nil n n

theorem pad2_shape : ∀ n, n < 100 → (pad2 n).length = 2 ∧ (pad2 n).all Char.isDigit = true := by
  decide

theorem padE_shape (n : Nat) : 2 ≤ (padE n).length ∧ (padE n).all Char.isDigit = true := by
  rw [padE]
  have hne := natDigits_ne_nil n
  have hall := natDigits_all_digit n
  constructor
  · split
    · have : (natDigits n).length ≠ 0 := by
        simpa [List.length_eq_zero] using hne
      simp only [List.length_cons]
      omega
    · omega
  · split
    · simpa using hall
    · exact hall


/-! ## JSON and Python literal values -/

inductive Json where
  | null
  | bool (b : Bool)
  | num (q : Rat)
  | str (s : String)
  | arr (xs : List Json)
  | obj (fields : List (String × Json))

mutual
def beqJson : Json → Json → Bool
  | .null, .null => true
  | .bool x, .bool y => x == y
  | .num x, .num y => x == y
  | .str x, .str y => x == y
  | .arr xs, .arr ys => beqJsonList xs ys
  | .obj fs, .obj gs => beqJsonFields fs gs
  | _, _ => false
def beqJsonList : List Json → List Json → Bool
  | [], [] => true
  | x :: xs, y :: ys => beqJson x y && beqJsonList xs ys
  | _, _ => false
def beqJsonFields : List (String × Json) → List (String × Json) → Bool
  | [], [] => true
  | (k, v) :: fs, (k2, v2) :: gs => k == k2 && beqJson v v2 && beqJsonFields fs gs
  | _, _ => false
end

example : beqJson (.arr [.num 1, .str "a"]) (.arr [.num 1, .str "a"]) = true := by decide
example : beqJson (.obj [("a", .null)]) (.obj [("a", .bool true)]) = false := by decide

theorem beqJsonList_iff (xs ys : List Json)
    (h : ∀ x ∈ xs, ∀ b, beqJson x b = true ↔ x = b) :
    (beqJsonList xs ys = true ↔ xs = ys) := by
  induction xs generalizing ys with
  | nil => cases ys <;> simp [beqJsonList]
  | cons x xs ih =>
    cases ys with
    | nil => simp [beqJsonList]
    | cons y ys =>
      simp only [beqJsonList, Bool.and_eq_true]
      rw [h x (List.mem_cons_self x xs), ih ys (fun z hz => h z (List.mem_cons_of_mem _ hz))]
      simp

theorem beqJsonFields_iff (fs gs : List (String × Json))
    (h : ∀ p ∈ fs, ∀ b, beqJson p.2 b = true ↔ p.2 = b) :
    (beqJsonFields fs gs = true ↔ fs = gs) := by
  induction fs generalizing gs with
  | nil => cases gs <;> simp [beqJsonFields]
  | cons p fs ih =>
    cases gs with
    | nil => simp [beqJsonFields]
    | cons p2 gs =>
      obtain ⟨k, v⟩ := p
      obtain ⟨k2, v2⟩ := p2
      simp only [beqJsonFields, Bool.and_eq_true]
      rw [ih gs (fun z hz => h z (List.mem_cons_of_mem _ hz))]
      have hv := h (k, v) (List.mem_cons_self _ _) v2
      simp only at hv
      rw [hv]
      simp only [beq_iff_eq]
      constructor
      · rintro ⟨⟨h1, h2⟩, h3⟩
        simp [h1, h2, h3]
      · rintro h0
        injection h0 with h1 h2
        injection h1 with ha hb
        exact ⟨⟨ha, hb⟩, h2⟩

theorem beqJson_iff_aux : ∀ (n : Nat) (a b : Json), sizeOf a ≤ n → (beqJson a b = true ↔ a = b) := by
  intro n
  induction n with
  | zero =>
    intro a b h
    cases a <;> simp at h
  | succ n ih =>
    intro a b h
    cases a with
    | null => cases b <;> simp [beqJson]
    | bool x => cases b <;> simp [beqJson]
    | num x => cases b <;> simp [beqJson]
    | str x => cases b <;> simp [beqJson]
    | arr xs =>
      cases b with
      | arr ys =>
        have hsz : sizeOf xs ≤ n := by
          simp only [Json.arr.sizeOf_spec] at h
          omega
        simp only [beqJson]
        rw [beqJsonList_iff xs ys (fun x hx b => ih x b
          (le_trans (Nat.le_of_lt (List.sizeOf_lt_of_mem hx)) hsz))]
        simp
      | null => simp [beqJson]
      | bool y => simp [beqJson]
      | num y => simp [beqJson]
      | str y => simp [beqJson]
      | obj gs => simp [beqJson]
    | obj fs =>
      cases b with
      | obj gs =>
        have hsz : sizeOf fs ≤ n := by
          simp only [Json.obj.sizeOf_spec] at h
          omega
        simp only [beqJson]
        rw [beqJsonFields_iff fs gs (fun p hp b => ih p.2 b
          (by
            have h1 : sizeOf p < sizeOf fs := List.sizeOf_lt_of_mem hp
            have h2 : sizeOf p.2 < sizeOf p := by
              obtain ⟨x, y⟩ := p
              simp only [Prod.mk.sizeOf_spec]
              omega
            omega))]
        simp
      | null => simp [beqJson]
      | bool y => simp [beqJson]
      | num y => simp [beqJson]
      | str y => simp [beqJson]
      | arr ys => simp [beqJson]

theorem beqJson_iff (a b : Json) : beqJson a b = true ↔ a = b :=
  beqJson_iff_aux (sizeOf a) a b le_rfl

instance : DecidableEq Json := fun a b => decidable_of_iff _ (beqJson_iff a b)

example : (Json.str "a") ≠ (Json.null) := by decide
example : Json.arr [Json.num 1] = Json.arr [Json.num 1] := by decide

instance : BEq Json := ⟨beqJson⟩

instance : LawfulBEq Json where
  eq_of_beq h := (beqJson_iff _ _).mp h
  rfl := (beqJson_iff _ _).mpr rfl

/-- Python truthiness of a JSON / literal value. -/
def jTruthy : Json → Bool
  | .null => false
  | .bool b => b
  | .num q => decide (q ≠ 0)
  | .str s => decide (s ≠ "")
  | .arr xs => decide (xs ≠ [])
  | .obj fs => decide (fs ≠ [])

/-- A Python dictionary with string keys, as an association list. -/
abbrev PyDict := List (String × Json)

/-- Python dict lookup `d.get(k)` / `d[k]`: later duplicate keys win,
matching `json.loads` duplicate handling. -/
def jlookup (d : PyDict) (k : String) : Option Json :=
  (d.reverse.find? (fun p => p.1 == k)).map (fun p => p.2)

/-- Python `d.get(k)`, with `None` for a missing key. -/
def dgetD (d : PyDict) (k : String) : Json := (jlookup d k).getD .null

/-- Python dict assignment `d[k] = v`: replace in place when the key is
present, append otherwise. -/
def dset (d : PyDict) (k : String) (v : Json) : PyDict :=
  if d.any (fun p => p.1 == k) then d.map (fun p => if p.1 == k then (k, v) else p)
  else d ++ [(k, v)]

/-- Lookup in a dictionary keyed by values (the name-to-code mapping). -/
def mlookup (m : List (Json × Json)) (k : Json) : Option Json :=
  (m.reverse.find? (fun p => p.1 == k)).map (fun p => p.2)

/-- Key membership `k in m` for a value-keyed dictionary. -/
def mContains (m : List (Json × Json)) (k : Json) : Bool :=
  m.any (fun p => p.1 == k)

/-- Assignment `m[k] = v` for a value-keyed dictionary. -/
def mset (m : List (Json × Json)) (k v : Json) : List (Json × Json) :=
  if m.any (fun p => p.1 == k) then m.map (fun p => if p.1 == k then (k, v) else p)
  else m ++ [(k, v)]

theorem isDigit_ne_minus (c : Char) (h : c.isDigit = true) : c ≠ '-' := by
  intro hc
  subst hc
  simp [Char.isDigit] at h

theorem isSciE2_build (neg : Bool) (c a1 a2 sg : Char) (rest : List Char)
    (hc : c.isDigit = true) (h1 : a1.isDigit = true) (h2 : a2.isDigit = true)
    (hsg : sg = '+' ∨ sg = '-') (hlen : 2 ≤ rest.length)
    (hall : rest.all Char.isDigit = true) :
    isSciE2 (String.mk ((if neg then ['-'] else [])
      ++ c :: '.' :: a1 :: a2 :: 'E' :: sg :: rest)) = true := by
  have hcm : c ≠ '-' := isDigit_ne_minus c hc
  cases neg with
  | true =>
    simp only [isSciE2, if_pos, String.toList]
    simp [hc, h1, h2, hall, hlen]
    rcases hsg with h | h <;> simp [h]
  | false =>
    simp only [isSciE2, String.toList]
    rw [if_neg (by simpa using hcm)]
    simp [hc, h1, h2, hall, hlen]
    rcases hsg with h | h <;> simp [h]

/-- For every nonzero finite float, the `'.2E'` rendering has the
scientific-notation shape with exactly two fractional digits. -/
theorem isSciE2_formatE2 (q : Rat) (hq : q ≠ 0) :
    isSciE2 (formatE2 (.finite q)) = true := by
  rw [formatE2, if_neg hq]
  have ha : 0 < |q| := abs_pos.mpr hq
  obtain ⟨hlo, hhi⟩ := ratLog10_spec |q| ha
  have hten : (10:Rat) ≠ 0 := by norm_num
  set e : Int := ratLog10 |q| with he
  set x : Rat := rMul |q| (ratPow10 (2 - e)) with hx
  have hxeq : x = |q| * (10:Rat) ^ ((2:Int) - e) := by rw [hx, rMul_eq, ratPow10_eq]
  have hpow_pos : (0:Rat) < (10:Rat) ^ ((2:Int) - e) := by positivity
  have hx_lo : (100:Rat) ≤ x := by
    rw [hxeq]
    calc (100:Rat) = (10:Rat) ^ (e : Int) * (10:Rat) ^ ((2:Int) - e) := by
          rw [← zpow_add₀ hten]
          have hexp : e + (2 - e) = (2:Int) := by ring
          rw [hexp]
          norm_num
      _ ≤ |q| * (10:Rat) ^ ((2:Int) - e) := mul_le_mul_of_nonneg_right hlo hpow_pos.le
  have hx_hi : x < (1000:Rat) := by
    rw [hxeq]
    calc |q| * (10:Rat) ^ ((2:Int) - e) < (10:Rat) ^ (e + 1) * (10:Rat) ^ ((2:Int) - e) :=
          mul_lt_mul_of_pos_right hhi hpow_pos
      _ = (1000:Rat) := by
          rw [← zpow_add₀ hten]
          have hexp : e + 1 + (2 - e) = (3:Int) := by ring
          rw [hexp]
          norm_num
  set N : Int := roundHalfEven x with hN
  obtain ⟨hNlo', hNhi'⟩ := roundHalfEven_bounds x
  have hfl_lo : (100:Int) ≤ ⌊x⌋ := by
    rw [Int.le_floor]
    exact_mod_cast hx_lo
  have hfl_hi : ⌊x⌋ < 1000 := by
    rw [Int.floor_lt]
    exact_mod_cast hx_hi
  have hN_lo : 100 ≤ N := le_trans hfl_lo hNlo'
  have hN_hi : N ≤ 1000 := by omega
  set Nn : Nat := if N = 1000 then 100 else N.toNat with hNn
  have hNn_lo : 100 ≤ Nn := by
    rw [hNn]
    split <;> omega
  have hNn_hi : Nn ≤ 999 := by
    rw [hNn]
    split <;> omega
  have hd1 : Nn / 100 < 10 := by omega
  have hd1' : natDigits (Nn / 100) = [digitChar (Nn / 100)] := natDigits_single _ hd1
  have hm : Nn % 100 < 100 := Nat.mod_lt _ (by norm_num)
  obtain ⟨hplen, hpall⟩ := pad2_shape (Nn % 100) hm
  obtain ⟨a1, a2, hpad⟩ := List.length_eq_two.mp hplen
  rw [hpad] at hpall
  simp only [List.all_cons, List.all_nil, Bool.and_true, Bool.and_eq_true] at hpall
  set en : Int := if N = 1000 then e + 1 else e with hen
  obtain ⟨hElen, hEall⟩ := padE_shape en.natAbs
  have hcore : formatE2core q = (if q < 0 then ['-'] else [])
      ++ digitChar (Nn / 100) :: '.' :: a1 :: a2 :: 'E'
      :: (if en < 0 then '-' else '+') :: padE en.natAbs := by
    rw [formatE2core]
    rw [← he, ← hx, ← hN, ← hNn, ← hen, hd1', hpad]
    simp
  rw [hcore]
  have hbuild := isSciE2_build (decide (q < 0)) (digitChar (Nn / 100)) a1 a2
    (if en < 0 then '-' else '+') (padE en.natAbs)
    (digitChar_isDigit _ hd1) hpall.1 hpall.2
    (by split <;> simp) hElen hEall
  by_cases hneg : q < 0
  · simpa [hneg] using hbuild
  · simpa [hneg] using hbuild


theorem find_map_set_mem {κ β : Type} [BEq κ] [LawfulBEq κ]
    (l : List (κ × β)) (k : κ) (v : β)
    (h : ∃ p ∈ l, p.1 = k) :
    ((l.map (fun p => if p.1 == k then (k, v) else p)).find? (fun p => p.1 == k)) = some (k, v) := by
  induction l with
  | nil => simp at h
  | cons q tl ih =>
    rw [List.map_cons]
    by_cases hq : q.1 = k
    · have h1 : (q.1 == k) = true := by simpa using hq
      rw [if_pos h1, List.find?_cons_of_pos _ (by simp)]
    · have h1 : (q.1 == k) = false := by simpa using hq
      have h2 : ∃ p ∈ tl, p.1 = k := by
        rcases h with ⟨p, hp, hpk⟩
        rcases List.mem_cons.mp hp with rfl | hmem
        · exact absurd hpk hq
        · exact ⟨p, hmem, hpk⟩
      rw [if_neg (by simp [hq]), List.find?_cons_of_neg _ (by simp [hq])]
      exact ih h2

theorem find_map_set_other {κ β : Type} [BEq κ] [LawfulBEq κ]
    (l : List (κ × β)) (k k2 : κ) (v : β) (hne : k2 ≠ k) :
    (l.map (fun p => if p.1 == k then (k, v) else p)).find? (fun p => p.1 == k2)
      = l.find? (fun p => p.1 == k2) := by
  induction l with
  | nil => rfl
  | cons q tl ih =>
    rw [List.map_cons]
    by_cases hq : q.1 = k
    · have h1 : (q.1 == k) = true := by simpa using hq
      have hkne : ¬ (k = k2) := fun h => hne h.symm
      have hqne : ¬ (q.1 = k2) := by rw [hq]; exact hkne
      rw [if_pos h1, List.find?_cons_of_neg _ (by simpa using hkne),
        List.find?_cons_of_neg _ (by simpa using hqne)]
      exact ih
    · have h1 : (q.1 == k) = false := by simpa using hq
      by_cases hq2 : q.1 = k2
      · rw [if_neg (by simp [hq]), List.find?_cons_of_pos _ (by simpa using hq2),
          List.find?_cons_of_pos _ (by simpa using hq2)]
      · rw [if_neg (by simp [hq]), List.find?_cons_of_neg _ (by simpa using hq2),
          List.find?_cons_of_neg _ (by simpa using hq2)]
        exact ih

theorem jlookup_dset_same (d : PyDict) (k : String) (v : Json) :
    jlookup (dset d k v) k = some v := by
  rw [dset]
  split
  · rename_i hany
    rw [jlookup, ← List.map_reverse]
    have hmem : ∃ p ∈ d.reverse, p.1 = k := by
      rcases List.any_eq_true.mp hany with ⟨p, hp, hpk⟩
      exact ⟨p, List.mem_reverse.mpr hp, by simpa using hpk⟩
    rw [find_map_set_mem d.reverse k v hmem]
    rfl
  · rw [jlookup, List.reverse_append]
    simp [List.find?_cons]

theorem jlookup_dset_other (d : PyDict) (k k2 : String) (v : Json) (hne : k2 ≠ k) :
    jlookup (dset d k v) k2 = jlookup d k2 := by
  rw [dset]
  have hk2 : ((k : String) == k2) = false := by
    simp only [beq_eq_false_iff_ne, ne_eq]
    exact fun h => hne h.symm
  split
  · rw [jlookup, ← List.map_reverse, find_map_set_other d.reverse k k2 v hne, jlookup]
  · rw [jlookup, List.reverse_append]
    simp only [List.reverse_cons, List.reverse_nil, List.nil_append, List.singleton_append,
      List.find?_cons, hk2]
    rfl

/-! ## `app_main.py`: post-processing helpers -/

/-- `convert_value` inside `convert_large_numbers_to_scientific`
(threshold 100000): the infinity symbol, the empty string, `None` and
non-string values pass through; otherwise `float(value)` is attempted and
values of magnitude above the threshold are reformatted with `'.2E'`. -/
def convert_value (value : Json) : Json :=
  if value = .str "∞" ∨ value = .str "" ∨ value = .null then value
  else
    match value with
    | .str s =>
      match pyFloatOfString s with
      | some num => if pyAbsGt num 100000 then .str (formatE2 num) else .str s
      | none => .str s
    | .null => .null
    | .bool b => .bool b
    | .num q => .num q
    | .arr xs => .arr xs
    | .obj fs => .obj fs

/-- One record step of `convert_large_numbers_to_scientific`: `item.copy()`
then rewrite of the two limit fields; reading a missing key raises
`KeyError`. -/
def convertRecord (item : PyDict) : Except String PyDict :=
  match jlookup item "上限" with
  | none => .error "KeyError: 上限"
  | some up =>
    let item1 := dset item "上限" (convert_value up)
    match jlookup item1 "下限" with
    | none => .error "KeyError: 下限"
    | some dn => .ok (dset item1 "下限" (convert_value dn))

/-- Sequential effectful map over `Except`, in Python loop order: the first
raised exception propagates. -/
def mapME {α β : Type} (f : α → Except String β) : List α → Except String (List β)
  | [] => .ok []
  | x :: xs =>
    match f x with
    | .error e => .error e
    | .ok y =>
      match mapME f xs with
      | .error e => .error e
      | .ok ys => .ok (y :: ys)

/-- `convert_large_numbers_to_scientific` of `app_main.py`. -/
def convert_large_numbers_to_scientific (data_list : List PyDict) :
    Except String (List PyDict) :=
  mapME convertRecord data_list

/-- `create_inspection_mapping` of `app_main.py`: fold the specification
list into a name-to-code dictionary, keeping only items whose code and name
are both truthy. -/
def create_inspection_mapping (data_list : List PyDict) : List (Json × Json) :=
  data_list.foldl (fun m item =>
    let project_code := dgetD item "项目代码"
    let inspection_item := dgetD item "检验项目"
    if jTruthy project_code ∧ jTruthy inspection_item then
      mset m inspection_item project_code
    else m) []

/-- `complete_project_codes` of `app_main.py`. -/
def complete_project_codes (data_list : List PyDict)
    (mapping_dict : List (Json × Json)) : List PyDict :=
  data_list.map fun item =>
    let project_code := dgetD item "项目代码"
    let inspection_item := dgetD item "检验项目"
    if jTruthy inspection_item ∧ (¬ jTruthy project_code ∨ project_code = .str "")
        ∧ mContains mapping_dict inspection_item then
      dset item "项目代码" ((mlookup mapping_dict inspection_item).getD .null)
    else item

/-- `remove_key_from_list_dicts` of `app_main.py`. -/
def remove_key_from_list_dicts (data_list : List PyDict) (key_to_remove : String) :
    List PyDict :=
  data_list.map (fun item => item.filter (fun p => p.1 != key_to_remove))


/-! ## `测试/com.py`: the consistency-scorer equality -/

/-- A pandas cell value for the comparison utility: a string, or a missing
value (`NaN` / `None`). -/
inductive PVal where
  | pstr (s : String)
  | pna
deriving DecidableEq

/-- The normalization of the word `无穷大` to `∞` at the top of
`values_equal`. -/
def normInfty (v : PVal) : PVal :=
  if v = .pstr "无穷大" then .pstr "∞" else v

/-- `pd.isna`. -/
def pyIsNa : PVal → Bool
  | .pna => true
  | .pstr _ => false

/-- `np.isclose(a, b)` with the default `rtol=1e-05`, `atol=1e-08` and
`equal_nan=True`. -/
def npIsClose (a b : PyFloat) : Bool :=
  match a, b with
  | .finite x, .finite y =>
    decide (|rSub x y| ≤ rAdd (ratMk 1 100000000) (rMul (ratMk 1 100000) |y|))
  | .nan, .nan => true
  | .inf, .inf => true
  | .neginf, .neginf => true
  | _, _ => false

/-- `float(v)` on a cell value (missing values never reach this point in
`values_equal`). -/
def pyFloatOfPVal : PVal → Option PyFloat
  | .pstr s => pyFloatOfString s
  | .pna => some .nan

/-- `str(v)` on a cell value (only string cells reach the string-comparison
branch of `values_equal`). -/
def pvalStr : PVal → String
  | .pstr s => s
  | .pna => "nan"

/-- `values_equal` of `测试/com.py`. -/
def values_equal (val1 val2 : PVal) : Bool :=
  let v1 := normInfty val1
  let v2 := normInfty val2
  if pyIsNa v1 ∧ pyIsNa v2 then true
  else if pyIsNa v1 ∨ pyIsNa v2 then false
  else
    match pyFloatOfPVal v1, pyFloatOfPVal v2 with
    | some f1, some f2 => npIsClose f1 f2
    | _, _ => pvalStr v1 == pvalStr v2

/-! ## Markdown compaction (`optimize_markdown_content`) -/

/-- First index `j` such that `l[j] = ']'` and `l[j+1] = '('`, with no
newline among `l[0..j]`: where the non-greedy `.*?\]\(` of the image regex
stops. -/
def findRB : List Char → Option Nat
  | [] => none
  | ']' :: tl => if tl.head? = some '(' then some 0 else (findRB tl).map (· + 1)
  | '\n' :: _ => none
  | _ :: tl => (findRB tl).map (· + 1)

/-- First index of `')'` with no newline before it: where the non-greedy
`.*?\)` stops. -/
def findCP : List Char → Option Nat
  | [] => none
  | ')' :: _ => some 0
  | '\n' :: _ => none
  | _ :: tl => (findCP tl).map (· + 1)

/-- Length of the part of an image match `![..](..)` after the leading
`![`, when the pattern `!\[.*?\]\(.*?\)` matches here. -/
def imgMatchLen (tl : List Char) : Option Nat :=
  match findRB tl with
  | none => none
  | some j =>
    match findCP (tl.drop (j + 2)) with
    | none => none
    | some m => some (j + 2 + m + 1)

/-- Scanner for `re.sub(r'!\[.*?\]\(.*?\)', '', content)`, fuel-driven so
that it stays kernel-reducible. -/
def remImgAux : Nat → List Char → List Char
  | 0, l => l
  | _ + 1, [] => []
  | f + 1, c :: rest =>
    if c = '!' then
      match rest with
      | '[' :: tl =>
        match imgMatchLen tl with
        | some n => remImgAux f (tl.drop n)
        | none => c :: remImgAux f rest
      | _ => c :: remImgAux f rest
    else c :: remImgAux f rest

/-- Image-reference removal. -/
def remImgL (l : List Char) : List Char := remImgAux l.length l

/-- First start index of an occurrence of `pat` (nonempty) as a contiguous
sublist. -/
def findSubstr (pat : List Char) : List Char → Option Nat
  | [] => none
  | c :: tl => if (c :: tl).take pat.length = pat then some 0
      else (findSubstr pat tl).map (· + 1)

/-- A table row rendering, `'|' + '|'.join(cells) + '|'`. -/
def rowLine (cells : List String) : String :=
  "|" ++ String.intercalate "|" cells ++ "|"

/-- The rows kept by `simple_table`: one pipe row per `<tr>` whose extracted
cell list is nonempty (rows with zero cells are dropped). -/
def simpleRows (trs : List (List String)) : List String :=
  trs.foldr (fun cells acc => if cells = [] then acc else rowLine cells :: acc) []

/-- Number of occurrences of a character in a string. -/
def countChar (s : String) (c : Char) : Nat := (s.toList.filter (· = c)).length

/-- `simple_table` of `optimize_markdown_content`, applied to the outcome of
the BeautifulSoup extraction: `none` models `soup.find('table')` returning
`None`; otherwise the argument lists the extracted cell texts of each
`<tr>`. -/
def simple_table (extracted : Option (List (List String))) : String :=
  match extracted with
  | none => ""
  | some trs =>
    match simpleRows trs with
    | [] => ""
    | [r] => r
    | r :: rs =>
      let sep := "|" ++ String.intercalate "|"
        (List.replicate (countChar r '|' - 1) "---") ++ "|"
      r ++ "\n" ++ sep ++ "\n" ++ String.intercalate "\n" rs

/-- A BeautifulSoup oracle: the per-`<tr>` cell texts of the first
`<table>` element of an HTML fragment, or `none` when no table element is
parsed out of it. -/
abbrev SoupOracle := String → Option (List (List String))

/-- The characters of `<table`. -/
def tblOpen : List Char := ['<', 't', 'a', 'b', 'l', 'e']

/-- The characters of `</table>`. -/
def tblClose : List Char := ['<', '/', 't', 'a', 'b', 'l', 'e', '>']

/-- Scanner for `re.sub(r'<table.*?</table>', simple_table, content,
flags=re.DOTALL)`, fuel-driven. -/
def tableSubAux (soup : SoupOracle) : Nat → List Char → List Char
  | 0, l => l
  | _ + 1, [] => []
  | f + 1, c :: rest =>
    if (c :: rest).take 6 = tblOpen then
      match findSubstr tblClose ((c :: rest).drop 6) with
      | some p =>
        (simple_table (soup (String.mk ((c :: rest).take (6 + p + 8))))).toList
          ++ tableSubAux soup f ((c :: rest).drop (6 + p + 8))
      | none => c :: tableSubAux soup f rest
    else c :: tableSubAux soup f rest

/-- HTML-table flattening. -/
def tableSubL (soup : SoupOracle) (l : List Char) : List Char :=
  tableSubAux soup l.length l

/-- `re.sub(r' +', ' ', ...)`: drop each space that another space follows
directly. -/
def spacesL : List Char → List Char
  | [] => []
  | c :: rest =>
    if c = ' ' ∧ rest.head? = some ' ' then spacesL rest else c :: spacesL rest

/-- `re.sub(r'[ \t]+\n', '\n', ...)`: drop each space or tab whose run of
following spaces and tabs ends at a newline. -/
def trailL : List Char → List Char
  | [] => []
  | c :: rest =>
    if isSpTab c ∧ (rest.dropWhile isSpTab).head? = some '\n' then trailL rest
    else c :: trailL rest

/-- `re.sub(r'\n{2,}', '\n\n', ...)`: drop each newline that at least two
further newlines follow directly. -/
def blankL : List Char → List Char
  | [] => []
  | c :: rest =>
    if c = '\n' ∧ rest.take 2 = ['\n', '\n'] then blankL rest else c :: blankL rest

/-- `optimize_markdown_content` of `app_main.py` (identical in
`测试/markdown_low_token.py`): image removal, HTML-table flattening through
the BeautifulSoup oracle, whitespace compaction and a final strip. -/
def optimize_markdown_content (soup : SoupOracle) (md_content : String) : String :=
  String.mk (stripL (blankL (trailL (spacesL
    (tableSubL soup (remImgL md_content.toList))))))


/-! ## `qms/pdf_markdown_extractor.py`: SSE stream accumulation -/

/-- Python indexing `x[0]` on the `choices` value of an SSE chunk (string
indexing yields a one-character string); `.error` models an exception that
escapes to the outer handler. -/
def jIndex0 : Json → Except String Json
  | .arr (x :: _) => .ok x
  | .arr [] => .error "IndexError"
  | .str s =>
    match s.toList with
    | c :: _ => .ok (.str (String.mk [c]))
    | [] => .error "IndexError"
  | _ => .error "TypeError"

/-- Python `o.get(k, default)`: raises `AttributeError` unless `o` is a
dict. -/
def pyGet (o : Json) (k : String) (default : Json) : Except String Json :=
  match o with
  | .obj fs => .ok ((jlookup fs k).getD default)
  | _ => .error "AttributeError"

/-- Processing of one JSON-parsed SSE chunk: the guarded extraction of
`choices[0].delta.content`. `.ok none` appends nothing, `.ok (some s)`
appends `s`, `.error` models an exception aborting the stream (caught by
the outer `except`). -/
def frameStep (chunk : Json) : Except String (Option String) :=
  match chunk with
  | .obj fs =>
    match jlookup fs "choices" with
    | some cv =>
      if jTruthy cv then
        match jIndex0 cv with
        | .error e => .error e
        | .ok c0 =>
          match pyGet c0 "delta" (.obj []) with
          | .error e => .error e
          | .ok delta =>
            match pyGet delta "content" (.str "") with
            | .error e => .error e
            | .ok content =>
              if jTruthy content then
                match content with
                | .str s => .ok (some s)
                | _ => .error "TypeError"
              else .ok none
      else .ok none
    | none => .ok none
  | _ => .ok none

/-- A `json.loads` oracle; `none` models `json.JSONDecodeError`. -/
abbrev JsonParse := String → Option Json

/-- The SSE line loop of `stream_and_parse_sse_response`: frames must be
nonempty and `data:`-prefixed; the stripped payload `[DONE]` stops
accumulation; unparseable payloads are skipped; parsed chunks contribute
their content delta. -/
def sseAccum (jp : JsonParse) : List String → String → Except String String
  | [], acc => .ok acc
  | line :: rest, acc =>
    if line ≠ "" ∧ line.toList.take 5 = "data:".toList then
      let ds := pyStrip (String.mk (line.toList.drop 5))
      if ds = "[DONE]" then .ok acc
      else
        match jp ds with
        | none => sseAccum jp rest acc
        | some chunk =>
          match frameStep chunk with
          | .error e => .error e
          | .ok none => sseAccum jp rest acc
          | .ok (some s) => sseAccum jp rest (acc ++ s)
    else sseAccum jp rest acc

/-- `stream_and_parse_sse_response` of `qms/pdf_markdown_extractor.py`,
over the response status code and its streamed lines: a non-200 status and
any in-stream exception both yield the empty string. -/
def stream_and_parse_sse_response (jp : JsonParse) (status : Nat)
    (lines : List String) : String :=
  if status = 200 then
    match sseAccum jp lines "" with
    | .ok s => s
    | .error _ => ""
  else ""

/-! ## `process_content`: think-tag removal and bracket extraction -/

/-- Scanner for `re.sub(r'<think>.*?</think>', '', s, flags=re.DOTALL)`,
fuel-driven. -/
def remThinkAux : Nat → List Char → List Char
  | 0, l => l
  | _ + 1, [] => []
  | f + 1, c :: rest =>
    if (c :: rest).take 7 = "<think>".toList then
      match findSubstr "</think>".toList ((c :: rest).drop 7) with
      | some p => remThinkAux f ((c :: rest).drop (7 + p + 8))
      | none => c :: remThinkAux f rest
    else c :: remThinkAux f rest

/-- Removal of `<think>...</think>` blocks. -/
def remThinkL (l : List Char) : List Char := remThinkAux l.length l

/-- Scanner for `re.sub(r'</?think>', '', s)`, fuel-driven. -/
def remThinkTagsAux : Nat → List Char → List Char
  | 0, l => l
  | _ + 1, [] => []
  | f + 1, c :: rest =>
    if (c :: rest).take 8 = "</think>".toList then
      remThinkTagsAux f ((c :: rest).drop 8)
    else if (c :: rest).take 7 = "<think>".toList then
      remThinkTagsAux f ((c :: rest).drop 7)
    else c :: remThinkTagsAux f rest

/-- Removal of stray `<think>` and `</think>` tags. -/
def remThinkTagsL (l : List Char) : List Char := remThinkTagsAux l.length l

/-- Balance scanner for the recursive regex `\[(?:[^[\]]|(?R))*\]`: the
number of characters consumed until the bracket that closes depth `d`, or
`none` when the brackets never rebalance. -/
def balScan : List Char → Nat → Option Nat
  | [], _ => none
  | c :: tl, d =>
    if c = '[' then (balScan tl (d + 1)).map (· + 1)
    else if c = ']' then
      if d = 1 then some 1 else (balScan tl (d - 1)).map (· + 1)
    else (balScan tl d).map (· + 1)

/-- Leftmost match of the balanced-bracket regex: the first `[` from which
a balanced bracket region closes, with that region. -/
def findBracketRegion : List Char → Option (List Char)
  | [] => none
  | c :: tl =>
    if c = '[' then
      match balScan tl 1 with
      | some m => some ('[' :: tl.take m)
      | none => findBracketRegion tl
    else findBracketRegion tl

/-- An `ast.literal_eval` oracle for the list-of-dicts payload; `none`
models any exception it raises. -/
abbrev LitEval := String → Option (List PyDict)

/-- `SpecificationExtractor.process_content`: strip think blocks and stray
think tags, locate the outermost bracketed region (the empty string when no
region matches), drop newlines and parse with the `ast.literal_eval`
oracle; every failure returns `none` (Python `None`) because of the bare
`except`. -/
def process_content (lit : LitEval) (full_content : String) :
    Option (List PyDict) :=
  let cleaned := remThinkL full_content.toList
  let cleaned2 := remThinkTagsL cleaned
  let outermost := match findBracketRegion cleaned2 with
    | some region => region
    | none => []
  let clean_text := String.mk (outermost.filter (fun c => c ≠ '\n'))
  lit clean_text

/-! ## The Flask endpoint `process_specification` -/

/-- The parts of a multipart request that the handler inspects: whether a
file part is present, and the raw `dataList` form field (`none` when the
field is absent). -/
structure ExtractRequest where
  hasFile : Bool
  dataList : Option String

/-- The handler outcome: a 200 payload, a 400 validation error, or a 500
internal error carrying the exception text. -/
inductive Resp where
  | ok (dataList : List PyDict)
  | badRequest (msg : String)
  | serverError (msg : String)
deriving DecidableEq

/-- The six required fields of a specification item. -/
def required_fields : List String := ["项目代码", "检验项目", "类型", "上限", "下限", "单位"]

/-- Python list repr of a list of strings, as interpolated into the
missing-fields message. -/
def pyReprStrList (xs : List String) : String :=
  "[" ++ String.intercalate ", " (xs.map (fun s => "'" ++ s ++ "'")) ++ "]"

/-- The per-item validation loop: the first offending item yields its
error message. -/
def firstInvalid : Nat → List Json → Option String
  | _, [] => none
  | i, item :: rest =>
    match item with
    | .obj fs =>
      let missing := required_fields.filter (fun k => ¬ fs.any (fun p => p.1 == k))
      if missing = [] then firstInvalid (i + 1) rest
      else some ("第" ++ toString (i + 1) ++ "个项目缺少必需字段: " ++ pyReprStrList missing)
    | _ => some ("第" ++ toString (i + 1) ++ "个项目必须是字典格式")

/-- View a validated item as a dictionary. -/
def toDict : Json → PyDict
  | .obj fs => fs
  | _ => []

/-- `"雾度" in v` for a field value: substring test on strings, membership
on lists and dicts, `TypeError` otherwise. -/
def pyInHaze : Json → Except String Bool
  | .str s => .ok (findSubstr "雾度".toList s.toList).isSome
  | .arr xs => .ok (xs.any (fun x => x == .str "雾度"))
  | .obj fs => .ok (fs.any (fun p => p.1 == "雾度"))
  | _ => .error "TypeError: argument of type is not iterable"

/-- Lazy `any("雾度" in s for s in names)`: early exit on the first hit, so
an exception in a later element is never raised. -/
def lazyAnyHaze : List Json → Except String Bool
  | [] => .ok false
  | v :: rest =>
    match pyInHaze v with
    | .error e => .error e
    | .ok true => .ok true
    | .ok false => lazyAnyHaze rest

/-- The `fix_program` computation: the comprehension
`[item["检验项目"] for item in check_pro]` is built eagerly (a missing key
raises `KeyError`), then the `any` generator runs lazily. -/
def fixProgram (check_pro : List PyDict) : Except String Bool :=
  match mapME (fun item =>
    match jlookup item "检验项目" with
    | some v => Except.ok v
    | none => Except.error "KeyError: 检验项目") check_pro with
  | .error e => .error e
  | .ok names => lazyAnyHaze names

/-- The downstream extraction oracle: PDF parsing, prompt assembly, the SSE
call and `process_content` combined. `.error` models a raised exception,
`.ok none` the silent `None` result of `process_content`. -/
abbrev ExtractOracle := List PyDict → Bool → Except String (Option (List PyDict))

/-- The modelled text of the `TypeError` raised when
`complete_project_codes` iterates a silent `None` extraction result. -/
def noneIterMsg : String := "TypeError: NoneType object is not iterable"

/-- The handler of `/api/file/extract-fields` (`process_specification` in
`app_main.py`). -/
def process_specification (jp : JsonParse) (ex : ExtractOracle)
    (req : ExtractRequest) : Resp :=
  if ¬ req.hasFile then .badRequest "未提供PDF文件"
  else
    match req.dataList with
    | none => .badRequest "未提供规格表数据(JSON格式)"
    | some ds =>
      if ds = "" then .badRequest "未提供规格表数据(JSON格式)"
      else
        match jp ds with
        | none => .badRequest "规格表数据不是有效的JSON格式"
        | some spec =>
          match spec with
          | .arr items =>
            match firstInvalid 0 items with
            | some msg => .badRequest msg
            | none =>
              let spec_data := items.map toDict
              let map_pro := create_inspection_mapping spec_data
              let check_pro := remove_key_from_list_dicts spec_data "项目代码"
              match fixProgram check_pro with
              | .error e => .serverError e
              | .ok fp =>
                match ex check_pro fp with
                | .error e => .serverError e
                | .ok none => .serverError noneIterMsg
                | .ok (some filled) =>
                  match convert_large_numbers_to_scientific
                      (complete_project_codes filled map_pro) with
                  | .error e => .serverError e
                  | .ok out => .ok out
          | .null => .badRequest "规格表数据必须是列表格式"
          | .bool _ => .badRequest "规格表数据必须是列表格式"
          | .num _ => .badRequest "规格表数据必须是列表格式"
          | .str _ => .badRequest "规格表数据必须是列表格式"
          | .obj _ => .badRequest "规格表数据必须是列表格式"

/-- The trivial BeautifulSoup oracle: no table is ever found. -/
def soupNone : SoupOracle := fun _ => none


/-! ## Helper lemmas for the claim theorems -/

theorem mapME_ok {α β : Type} (f : α → Except String β) :
    ∀ (l : List α) (out : List β), mapME f l = .ok out →
      out.length = l.length ∧
      ∀ i (h1 : i < l.length) (h2 : i < out.length),
        f (l.get ⟨i, h1⟩) = .ok (out.get ⟨i, h2⟩) := by
  intro l
  induction l with
  | nil =>
    intro out h
    rw [mapME] at h
    cases h
    exact ⟨rfl, fun i h1 _ => absurd h1 (by simp)⟩
  | cons x xs ih =>
    intro out h
    rw [mapME] at h
    cases hfx : f x with
    | error e => rw [hfx] at h; cases h
    | ok y =>
      rw [hfx] at h
      cases hxs : mapME f xs with
      | error e => rw [hxs] at h; cases h
      | ok ys =>
        rw [hxs] at h
        cases h
        obtain ⟨hlen, hidx⟩ := ih ys hxs
        refine ⟨by simp [hlen], ?_⟩
        intro i h1 h2
        cases i with
        | zero => simpa using hfx
        | succ j =>
          have hj1 : j < xs.length := by simpa using h1
          have hj2 : j < ys.length := by simpa using h2
          simpa using hidx j hj1 hj2

theorem mapME_ok_of_forall {α β : Type} (f : α → Except String β) :
    ∀ l : List α, (∀ x ∈ l, ∃ y, f x = .ok y) → ∃ out, mapME f l = .ok out := by
  intro l
  induction l with
  | nil => intro h; exact ⟨[], rfl⟩
  | cons x xs ih =>
    intro h
    obtain ⟨y, hy⟩ := h x (List.mem_cons_self x xs)
    obtain ⟨ys, hys⟩ := ih (fun z hz => h z (List.mem_cons_of_mem _ hz))
    exact ⟨y :: ys, by rw [mapME, hy, hys]⟩

theorem convertRecord_ok (item out : PyDict) (h : convertRecord item = .ok out) :
    ∃ up dn, jlookup item "上限" = some up ∧ jlookup item "下限" = some dn
      ∧ jlookup out "上限" = some (convert_value up)
      ∧ jlookup out "下限" = some (convert_value dn)
      ∧ ∀ k, k ≠ "上限" → k ≠ "下限" → jlookup out k = jlookup item k := by
  rw [convertRecord] at h
  cases hup : jlookup item "上限" with
  | none => rw [hup] at h; cases h
  | some up =>
    rw [hup] at h
    have hdn_eq : jlookup (dset item "上限" (convert_value up)) "下限"
        = jlookup item "下限" :=
      jlookup_dset_other item "上限" "下限" _ (by decide)
    simp only [hdn_eq] at h
    cases hdn : jlookup item "下限" with
    | none => rw [hdn] at h; cases h
    | some dn =>
      rw [hdn] at h
      cases h
      refine ⟨up, dn, rfl, rfl, ?_, ?_, ?_⟩
      · rw [jlookup_dset_other _ "下限" "上限" _ (by decide),
          jlookup_dset_same]
      · rw [jlookup_dset_same]
      · intro k hk1 hk2
        rw [jlookup_dset_other _ _ _ _ hk2, jlookup_dset_other _ _ _ _ hk1]

theorem convertRecord_isOk (item : PyDict)
    (h1 : (jlookup item "上限").isSome) (h2 : (jlookup item "下限").isSome) :
    ∃ out, convertRecord item = .ok out := by
  rw [convertRecord]
  cases hup : jlookup item "上限" with
  | none => rw [hup] at h1; simp at h1
  | some up =>
    have hdn_eq : jlookup (dset item "上限" (convert_value up)) "下限"
        = jlookup item "下限" :=
      jlookup_dset_other item "上限" "下限" _ (by decide)
    simp only [hdn_eq]
    cases hdn : jlookup item "下限" with
    | none => rw [hdn] at h2; simp at h2
    | some dn => exact ⟨_, rfl⟩

theorem npIsClose_refl (q : Rat) : npIsClose (.finite q) (.finite q) = true := by
  simp only [npIsClose, decide_eq_true_eq]
  rw [rSub_eq, rAdd_eq, rMul_eq, ratMk_eq_div, ratMk_eq_div]
  rw [sub_self, abs_zero]
  positivity

/-- The string-level normalization corresponding to `normInfty`. -/
def normStr (s : String) : String := if s = "无穷大" then "∞" else s

theorem normInfty_pstr (s : String) : normInfty (.pstr s) = .pstr (normStr s) := by
  rw [normInfty, normStr]
  split
  · rename_i h
    rw [if_pos (by injection h)]
  · rename_i h
    rw [if_neg (fun hc => h (by rw [hc]))]



theorem mlookup_mset_same (m : List (Json × Json)) (k v : Json) :
    mlookup (mset m k v) k = some v := by
  rw [mset]
  split
  · rename_i hany
    rw [mlookup, ← List.map_reverse]
    have hmem : ∃ p ∈ m.reverse, p.1 = k := by
      rcases List.any_eq_true.mp hany with ⟨p, hp, hpk⟩
      exact ⟨p, List.mem_reverse.mpr hp, by simpa using hpk⟩
    rw [find_map_set_mem m.reverse k v hmem]
    rfl
  · rw [mlookup, List.reverse_append]
    simp [List.find?_cons]

theorem mlookup_mset_other (m : List (Json × Json)) (k k2 v : Json) (hne : k2 ≠ k) :
    mlookup (mset m k v) k2 = mlookup m k2 := by
  rw [mset]
  have hk2 : (k == k2) = false := by
    simp only [beq_eq_false_iff_ne, ne_eq]
    exact fun h => hne h.symm
  split
  · rw [mlookup, ← List.map_reverse, find_map_set_other m.reverse k k2 v hne, mlookup]
  · rw [mlookup, List.reverse_append]
    simp only [List.reverse_cons, List.reverse_nil, List.nil_append, List.singleton_append,
      List.find?_cons, hk2]
    rfl

theorem mContains_isSome (m : List (Json × Json)) (k : Json) (h : mContains m k = true) :
    (mlookup m k).isSome = true := by
  rw [mContains] at h
  rw [mlookup]
  have hfind : (List.find? (fun p => p.1 == k) m.reverse).isSome = true := by
    rw [List.find?_isSome]
    rcases List.any_eq_true.mp h with ⟨p, hp, hpk⟩
    exact ⟨p, List.mem_reverse.mpr hp, hpk⟩
  cases hf : List.find? (fun p => p.1 == k) m.reverse with
  | none => rw [hf] at hfind; cases hfind
  | some p => rfl

/-- An original specification item contributes to the name-to-code mapping
exactly when both its code and its name are truthy. -/
def cimQualifies (item : PyDict) : Bool :=
  jTruthy (dgetD item "项目代码") && jTruthy (dgetD item "检验项目")

theorem cim_lookup (dl : List PyDict) (n : Json) :
    mlookup (create_inspection_mapping dl) n =
      (dl.reverse.find? (fun it => cimQualifies it && (dgetD it "检验项目" == n))).map
        (fun it => dgetD it "项目代码") := by
  induction dl using List.reverseRecOn with
  | nil => rfl
  | append_singleton dl d ih =>
    rw [create_inspection_mapping, List.foldl_append, List.foldl_cons, List.foldl_nil,
      ← create_inspection_mapping, List.reverse_append]
    simp only [List.reverse_cons, List.reverse_nil, List.nil_append, List.singleton_append]
    by_cases hq : jTruthy (dgetD d "项目代码") ∧ jTruthy (dgetD d "检验项目")
    · rw [if_pos hq]
      have hquals : cimQualifies d = true := by
        rw [cimQualifies, hq.1, hq.2]
        rfl
      by_cases hn : dgetD d "检验项目" = n
      · rw [hn, mlookup_mset_same,
          List.find?_cons_of_pos _ (by rw [hquals, hn]; simp)]
        rfl
      · rw [mlookup_mset_other _ _ _ _ (fun h => hn h.symm),
          List.find?_cons_of_neg _ (by simp [hquals, hn])]
        exact ih
    · have hquals : cimQualifies d = false := by
        rw [cimQualifies]
        rcases Decidable.not_and_iff_or_not.mp hq with h | h
        · rw [Bool.and_eq_false_iff]
          exact Or.inl (by simpa using h)
        · rw [Bool.and_eq_false_iff]
          exact Or.inr (by simpa using h)
      rw [if_neg hq, List.find?_cons_of_neg _ (by simp [hquals])]
      exact ih

/-! ## Claim theorems -/

/-- C10: `values_equal` normalizes the Chinese word `无穷大` to the symbol
`∞` before comparing, so the two spellings are judged equal in either
argument order even though their raw strings differ. -/
theorem C10_values_equal_infinity_word :
    values_equal (.pstr "无穷大") (.pstr "∞") = true
      ∧ values_equal (.pstr "∞") (.pstr "无穷大") = true
      ∧ "无穷大" ≠ "∞" := by decide

/-- C3 counterexample: `'无穷大'` and `'∞'` both fail numeric conversion
and their string coercions differ, yet `values_equal` judges them equal —
so "equal if and only if their string coercions are identical" fails as
stated. -/
theorem C3_counterexample :
    pyFloatOfString "无穷大" = none ∧ pyFloatOfString "∞" = none
      ∧ "无穷大" ≠ "∞"
      ∧ values_equal (.pstr "无穷大") (.pstr "∞") = true := by decide

/-- C3 (amended): after the `无穷大 → ∞` normalization, two numeric strings
parsing to the same finite value are judged equal (and in general two
parseable strings compare by `np.isclose`); two strings that both fail
numeric conversion are judged equal if and only if they are identical
after normalization and string coercion; missing versus missing is equal;
missing versus any present value is unequal. -/
theorem C3_values_equal_spec :
    (∀ s1 s2 q, pyFloatOfString s1 = some (.finite q) →
        pyFloatOfString s2 = some (.finite q) →
        values_equal (.pstr s1) (.pstr s2) = true)
    ∧ (∀ s1 s2 f1 f2, pyFloatOfString (normStr s1) = some f1 →
        pyFloatOfString (normStr s2) = some f2 →
        values_equal (.pstr s1) (.pstr s2) = npIsClose f1 f2)
    ∧ (∀ s1 s2, pyFloatOfString (normStr s1) = none →
        pyFloatOfString (normStr s2) = none →
        (values_equal (.pstr s1) (.pstr s2) = true ↔ normStr s1 = normStr s2))
    ∧ values_equal .pna .pna = true
    ∧ (∀ s, values_equal .pna (.pstr s) = false
        ∧ values_equal (.pstr s) .pna = false) := by
  have hword : pyFloatOfString "无穷大" = none := by decide
  have hgen : ∀ s1 s2 f1 f2, pyFloatOfString (normStr s1) = some f1 →
      pyFloatOfString (normStr s2) = some f2 →
      values_equal (.pstr s1) (.pstr s2) = npIsClose f1 f2 := by
    intro s1 s2 f1 f2 h1 h2
    rw [values_equal]
    simp only [normInfty_pstr, pyIsNa, pyFloatOfPVal]
    rw [h1, h2]
    simp
  refine ⟨?_, hgen, ?_, by decide, ?_⟩
  · intro s1 s2 q h1 h2
    have hn1 : normStr s1 = s1 := by
      rw [normStr, if_neg]
      intro hc
      rw [hc, hword] at h1
      cases h1
    have hn2 : normStr s2 = s2 := by
      rw [normStr, if_neg]
      intro hc
      rw [hc, hword] at h2
      cases h2
    rw [hgen s1 s2 (.finite q) (.finite q) (by rw [hn1]; exact h1) (by rw [hn2]; exact h2)]
    exact npIsClose_refl q
  · intro s1 s2 h1 h2
    rw [values_equal]
    simp only [normInfty_pstr, pyIsNa, pyFloatOfPVal]
    rw [h1, h2]
    simp [pvalStr]
  · intro s
    have h1 : normInfty PVal.pna = PVal.pna := by simp [normInfty]
    constructor
    · rw [values_equal]
      simp only [normInfty_pstr, h1]
      rfl
    · rw [values_equal]
      simp only [normInfty_pstr, h1]
      rfl

/-- C3 witness: the amended statement at concrete inputs — `"1"` and
`"1.0"` are judged equal; two distinct unparseable strings are judged equal
exactly when their normalized coercions agree. -/
theorem C3_witness :
    values_equal (.pstr "1") (.pstr "1.0") = true
      ∧ (values_equal (.pstr "abc") (.pstr "abd") = true
          ↔ normStr "abc" = normStr "abd") :=
  ⟨C3_values_equal_spec.1 "1" "1.0" 1 (by decide) (by decide),
   C3_values_equal_spec.2.2.1 "abc" "abd" (by decide) (by decide)⟩

/-- C1 counterexample: the string `'inf'` parses numerically with absolute
value above the threshold 100000, but `convert_value` rewrites it to
`'INF'`, which has no uppercase-E exponent marker and no decimal digits, so
the claimed `.2E` shape fails on it. -/
theorem C1_counterexample :
    pyFloatOfString "inf" = some .inf
      ∧ pyAbsGt .inf 100000 = true
      ∧ convert_value (.str "inf") = .str "INF"
      ∧ isSciE2 "INF" = false := by decide

/-- C1 (amended): for string limit values, a finite parsed value of
magnitude above 100000 is rewritten as `format(x, '.2E')` — uppercase `E`,
exactly two decimal digits — while a finite value of magnitude at most
100000, the sentinels `∞`, the empty string and `None`, parse failures,
`nan` and non-string values are returned unchanged; strings parsing to an
infinity are rewritten to `'INF'`/`'-INF'` (no exponent marker); and
`convert_large_numbers_to_scientific` applies exactly this `convert_value`
to the `上限` and `下限` fields of every record, in list order. -/
theorem C1_convert_spec :
    (∀ s q, pyFloatOfString s = some (.finite q) → 100000 < |q| →
        convert_value (.str s) = .str (formatE2 (.finite q))
          ∧ isSciE2 (formatE2 (.finite q)) = true)
    ∧ (∀ s q, pyFloatOfString s = some (.finite q) → |q| ≤ 100000 →
        convert_value (.str s) = .str s)
    ∧ (∀ s, pyFloatOfString s = none → convert_value (.str s) = .str s)
    ∧ convert_value (.str "∞") = .str "∞"
    ∧ convert_value (.str "") = .str ""
    ∧ convert_value .null = .null
    ∧ (∀ s, pyFloatOfString s = some .inf → convert_value (.str s) = .str "INF")
    ∧ (∀ s, pyFloatOfString s = some .neginf → convert_value (.str s) = .str "-INF")
    ∧ (∀ s, pyFloatOfString s = some .nan → convert_value (.str s) = .str s)
    ∧ (∀ b q, convert_value (.bool b) = .bool b ∧ convert_value (.num q) = .num q)
    ∧ (∀ dl out, convert_large_numbers_to_scientific dl = .ok out →
        out.length = dl.length ∧
          ∀ i (h1 : i < dl.length) (h2 : i < out.length),
            ∃ up dn, jlookup (dl.get ⟨i, h1⟩) "上限" = some up
              ∧ jlookup (dl.get ⟨i, h1⟩) "下限" = some dn
              ∧ jlookup (out.get ⟨i, h2⟩) "上限" = some (convert_value up)
              ∧ jlookup (out.get ⟨i, h2⟩) "下限" = some (convert_value dn)) := by
  have hinf : pyFloatOfString "∞" = none := by decide
  have hemp : pyFloatOfString "" = none := by decide
  have hsent : ∀ s, pyFloatOfString s ≠ none →
      ¬(Json.str s = .str "∞" ∨ Json.str s = .str "" ∨ Json.str s = .null) := by
    intro s hs
    simp only [Json.str.injEq]
    push_neg
    refine ⟨?_, ?_, by intro h; cases h⟩
    · intro hc; rw [hc, hinf] at hs; exact hs rfl
    · intro hc; rw [hc, hemp] at hs; exact hs rfl
  refine ⟨?_, ?_, ?_, by decide, by decide, by decide, ?_, ?_, ?_, ?_, ?_⟩
  · intro s q hp hgt
    have hq0 : q ≠ 0 := by
      intro hc
      rw [hc] at hgt
      simp at hgt
      exact absurd hgt (by norm_num)
    constructor
    · rw [convert_value, if_neg (hsent s (by rw [hp]; intro h; cases h))]
      rw [hp]
      simp only [pyAbsGt]
      rw [if_pos (by simpa using hgt)]
    · exact isSciE2_formatE2 q hq0
  · intro s q hp hle
    rw [convert_value, if_neg (hsent s (by rw [hp]; intro h; cases h))]
    rw [hp]
    simp only [pyAbsGt]
    rw [if_neg (by simpa using not_lt.mpr hle)]
  · intro s hp
    rw [convert_value]
    by_cases hc : Json.str s = .str "∞" ∨ Json.str s = .str "" ∨ Json.str s = .null
    · rw [if_pos hc]
    · rw [if_neg hc, hp]
  · intro s hp
    rw [convert_value, if_neg (hsent s (by rw [hp]; intro h; cases h))]
    rw [hp]
    rfl
  · intro s hp
    rw [convert_value, if_neg (hsent s (by rw [hp]; intro h; cases h))]
    rw [hp]
    rfl
  · intro s hp
    rw [convert_value, if_neg (hsent s (by rw [hp]; intro h; cases h))]
    rw [hp]
    rfl
  · intro b q
    constructor
    · rw [convert_value,
        if_neg (fun h => by rcases h with h | h | h <;> exact Json.noConfusion h)]
    · rw [convert_value,
        if_neg (fun h => by rcases h with h | h | h <;> exact Json.noConfusion h)]
  · intro dl out hconv
    rw [convert_large_numbers_to_scientific] at hconv
    obtain ⟨hlen, hidx⟩ := mapME_ok convertRecord dl out hconv
    refine ⟨hlen, ?_⟩
    intro i h1 h2
    obtain ⟨up, dn, hu, hd, hcu, hcd, _⟩ := convertRecord_ok _ _ (hidx i h1 h2)
    exact ⟨up, dn, hu, hd, hcu, hcd⟩

/-- C1 witness: the amended statement at concrete inputs — `'123456.7'`
converts to `'1.23E+05'` of the checked shape, and `'99'` is unchanged. -/
theorem C1_witness :
    convert_value (.str "123456.7") = .str (formatE2 (.finite (ratMk 1234567 10)))
      ∧ isSciE2 (formatE2 (.finite (ratMk 1234567 10))) = true
      ∧ convert_value (.str "99") = .str "99" :=
  ⟨(C1_convert_spec.1 "123456.7" (ratMk 1234567 10) (by decide) (by decide)).1,
   (C1_convert_spec.1 "123456.7" (ratMk 1234567 10) (by decide) (by decide)).2,
   C1_convert_spec.2.1 "99" (ratMk 99 1) (by decide) (by decide)⟩

/-- C9 counterexample: on a record list containing a dictionary without the
`上限` key, `convert_large_numbers_to_scientific` raises `KeyError` and
returns no list at all, so the claim as stated (it always returns a new
list of copied records) fails. -/
theorem C9_counterexample :
    convert_large_numbers_to_scientific [([] : PyDict)] = .error "KeyError: 上限" := by
  decide

/-- C9 (amended): whenever `convert_large_numbers_to_scientific` returns a
list (which it does exactly when every record carries the `上限` and `下限`
keys; otherwise a `KeyError` propagates), the result has one record per
input record in the same order, and in each returned record every key other
than `上限` and `下限` maps to the same value as in the corresponding input
record; in the pure embedding the input list itself is untouched. -/
theorem C9_convert_frame :
    (∀ dl out, convert_large_numbers_to_scientific dl = .ok out →
        out.length = dl.length ∧
          ∀ i (h1 : i < dl.length) (h2 : i < out.length), ∀ k,
            k ≠ "上限" → k ≠ "下限" →
            jlookup (out.get ⟨i, h2⟩) k = jlookup (dl.get ⟨i, h1⟩) k)
    ∧ (∀ dl, (∀ item ∈ dl, (jlookup item "上限").isSome
          ∧ (jlookup item "下限").isSome) →
        ∃ out, convert_large_numbers_to_scientific dl = .ok out) := by
  constructor
  · intro dl out hconv
    rw [convert_large_numbers_to_scientific] at hconv
    obtain ⟨hlen, hidx⟩ := mapME_ok convertRecord dl out hconv
    refine ⟨hlen, ?_⟩
    intro i h1 h2 k hk1 hk2
    obtain ⟨up, dn, _, _, _, _, hframe⟩ := convertRecord_ok _ _ (hidx i h1 h2)
    exact hframe k hk1 hk2
  · intro dl hkeys
    rw [convert_large_numbers_to_scientific]
    exact mapME_ok_of_forall convertRecord dl
      (fun item hmem => convertRecord_isOk item (hkeys item hmem).1 (hkeys item hmem).2)

/-- C9 witness: the amended statement at a concrete two-record list — the
returned records keep `检验项目` and `单位` untouched and stay in order. -/
theorem C9_witness :
    ∃ out, convert_large_numbers_to_scientific
        [[("检验项目", Json.str "厚度"), ("上限", Json.str "200000"), ("下限", Json.str "0"), ("单位", Json.str "mm")]]
        = .ok out
      ∧ out.length = 1
      ∧ (∀ i (h1 : i < (1:Nat)) (h2 : i < out.length), ∀ k, k ≠ "上限" → k ≠ "下限" →
          jlookup (out.get ⟨i, h2⟩) k
            = jlookup ([[("检验项目", Json.str "厚度"), ("上限", Json.str "200000"), ("下限", Json.str "0"), ("单位", Json.str "mm")]].get ⟨i, h1⟩) k) := by
  obtain ⟨out, hout⟩ := C9_convert_frame.2
    [[("检验项目", Json.str "厚度"), ("上限", Json.str "200000"), ("下限", Json.str "0"), ("单位", Json.str "mm")]]
    (by decide)
  refine ⟨out, hout, ?_, ?_⟩
  · exact (C9_convert_frame.1 _ _ hout).1.trans (by decide)
  · intro i h1 h2 k hk1 hk2
    exact (C9_convert_frame.1 _ _ hout).2 i (by simpa using h1) h2 k hk1 hk2


/-- C8: rows with zero extracted cells are dropped by the table flattening,
and a table yielding fewer than two kept rows emits at most the single kept
row — the row itself when one remains, the empty string when none (also
when no `table` element is found) — and never a separator row. -/
theorem C8_simple_table_small :
    (∀ trs, simpleRows trs = (trs.filter (fun c => c ≠ [])).map rowLine)
    ∧ (∀ trs, simpleRows trs = [] → simple_table (some trs) = "")
    ∧ (∀ trs r, simpleRows trs = [r] → simple_table (some trs) = r)
    ∧ simple_table none = "" := by
  refine ⟨?_, ?_, ?_, rfl⟩
  · intro trs
    induction trs with
    | nil => rfl
    | cons cells tl ih =>
      rw [simpleRows] at *
      by_cases hc : cells = []
      · simp [hc, List.filter_cons, ih]
      · simp [hc, List.filter_cons, ih]
  · intro trs h
    rw [simple_table]
    simp only [h]
  · intro trs r h
    rw [simple_table]
    simp only [h]

/-- C8 witness: at a concrete table whose extraction yields one empty and
one nonempty row, the flattening emits exactly the single pipe row. -/
theorem C8_witness :
    simple_table (some [[], ["c", "d"]]) = "|c|d|" :=
  C8_simple_table_small.2.2.1 [[], ["c", "d"]] "|c|d|" (by decide)

/-- C5: with an `ast.literal_eval` oracle that fails on the empty string
(as `literal_eval('')` always does), `process_content` yields `None` and no
exception both when no outermost bracketed region is found after think-tag
removal and when the located region fails literal parsing. -/
theorem C5_process_content_silent (lit : LitEval) (hlit : lit "" = none) (s : String) :
    (findBracketRegion (remThinkTagsL (remThinkL s.toList)) = none →
        process_content lit s = none)
      ∧ (∀ region, findBracketRegion (remThinkTagsL (remThinkL s.toList)) = some region →
          lit (String.mk (region.filter (fun c => c ≠ '\n'))) = none →
          process_content lit s = none) := by
  constructor
  · intro h
    rw [process_content]
    simp only [h]
    exact hlit
  · intro region h hl
    rw [process_content]
    simp only [h]
    exact hl

/-- C5 witness: the statement applied to the always-failing literal oracle,
once on an input with no bracketed region and once on an input whose region
is located but fails to parse. -/
theorem C5_witness :
    process_content (fun _ => none) "<think>[1]</think> no brackets" = none
      ∧ process_content (fun _ => none) "x[oops]y" = none :=
  ⟨(C5_process_content_silent (fun _ => none) rfl "<think>[1]</think> no brackets").1
      (by decide),
   (C5_process_content_silent (fun _ => none) rfl "x[oops]y").2 "[oops]".toList
      (by decide) rfl⟩

/-- C4: the SSE reader returns the empty string for any non-200 status
(regardless of the streamed lines); a `data:`-prefixed frame whose stripped
payload is not the sentinel and fails JSON parsing is skipped, leaving the
accumulation exactly as if the frame were absent; and a frame whose
stripped payload is `[DONE]` stops accumulation, ignoring all later
frames. -/
theorem C4_sse_stream_spec :
    (∀ (jp : JsonParse) (status : Nat) (lines : List String), status ≠ 200 →
        stream_and_parse_sse_response jp status lines = "")
    ∧ (∀ (jp : JsonParse) (pre post : List String) (bad acc : String),
        bad ≠ "" → bad.toList.take 5 = "data:".toList →
        pyStrip (String.mk (bad.toList.drop 5)) ≠ "[DONE]" →
        jp (pyStrip (String.mk (bad.toList.drop 5))) = none →
        sseAccum jp (pre ++ bad :: post) acc = sseAccum jp (pre ++ post) acc)
    ∧ (∀ (jp : JsonParse) (dline : String) (post : List String) (acc : String),
        dline ≠ "" → dline.toList.take 5 = "data:".toList →
        pyStrip (String.mk (dline.toList.drop 5)) = "[DONE]" →
        sseAccum jp (dline :: post) acc = .ok acc) := by
  refine ⟨?_, ?_, ?_⟩
  · intro jp status lines h
    rw [stream_and_parse_sse_response, if_neg h]
  · intro jp pre
    induction pre with
    | nil =>
      intro post bad acc h1 h2 h3 h4
      simp only [List.nil_append]
      rw [sseAccum, if_pos ⟨h1, h2⟩, if_neg h3, h4]
    | cons p pre ih =>
      intro post bad acc h1 h2 h3 h4
      simp only [List.cons_append, sseAccum]
      by_cases hp : p ≠ "" ∧ p.toList.take 5 = "data:".toList
      · rw [if_pos hp, if_pos hp]
        by_cases hd : pyStrip (String.mk (p.toList.drop 5)) = "[DONE]"
        · rw [if_pos hd, if_pos hd]
        · rw [if_neg hd, if_neg hd]
          cases hjp : jp (pyStrip (String.mk (p.toList.drop 5))) with
          | none => exact ih post bad acc h1 h2 h3 h4
          | some chunk =>
            cases hfs : frameStep chunk with
            | error e => simp only [hfs]
            | ok o =>
              cases o with
              | none =>
                simp only [hfs]
                exact ih post bad acc h1 h2 h3 h4
              | some s =>
                simp only [hfs]
                exact ih post bad (acc ++ s) h1 h2 h3 h4
      · rw [if_neg hp, if_neg hp]
        exact ih post bad acc h1 h2 h3 h4
  · intro jp dline post acc h1 h2 h3
    rw [sseAccum, if_pos ⟨h1, h2⟩, if_pos h3]

/-- C4 witness: the statement at concrete streams — a 404 response yields
the empty string, an unparseable frame is dropped without disturbing its
neighbours, and a `[DONE]` frame freezes the accumulator. -/
theorem C4_witness :
    stream_and_parse_sse_response (fun _ => none) 404 ["data: x"] = ""
      ∧ sseAccum (fun _ => none) (["data: first"] ++ "data: oops" :: ["data: last"]) "z"
          = sseAccum (fun _ => none) (["data: first"] ++ ["data: last"]) "z"
      ∧ sseAccum (fun _ => none) ("data: [DONE]" :: ["data: more"]) "acc" = .ok "acc" :=
  ⟨C4_sse_stream_spec.1 (fun _ => none) 404 ["data: x"] (by decide),
   C4_sse_stream_spec.2.1 (fun _ => none) ["data: first"] ["data: last"] "data: oops" "z"
     (by decide) (by decide) (by decide) rfl,
   C4_sse_stream_spec.2.2 (fun _ => none) "data: [DONE]" ["data: more"] "acc"
     (by decide) (by decide) (by decide)⟩


/-- The first counterexample record: code `A`, name `x`. -/
def dupRecA : PyDict := [("项目代码", .str "A"), ("检验项目", .str "x")]

/-- The second counterexample record: code `B`, same name `x`. -/
def dupRecB : PyDict := [("项目代码", .str "B"), ("检验项目", .str "x")]

/-- C6 counterexample: with two specification items sharing the name `x`
(codes `A` and `B`), the first item has a truthy code and name and the
name-code pair `(x, A)`, yet the built mapping does not contain that pair —
only the later code `B` survives — so the mapping does not contain exactly
the name-code pairs of all qualifying items. -/
theorem C6_counterexample :
    (∃ item ∈ [dupRecA, dupRecB], jTruthy (dgetD item "项目代码") = true
        ∧ jTruthy (dgetD item "检验项目") = true
        ∧ dgetD item "检验项目" = .str "x" ∧ dgetD item "项目代码" = .str "A")
      ∧ mlookup (create_inspection_mapping [dupRecA, dupRecB]) (.str "x")
          ≠ some (.str "A") := by decide

/-- C6 (amended): `complete_project_codes` fills the `项目代码` field of
exactly those records whose code is absent, `None` or falsy (or the empty
string) and whose truthy `检验项目` name is a key of the mapping, with the
mapped code, leaving every other key and every other record unchanged and
preserving order; and the mapping built by `create_inspection_mapping`
sends a name to a code exactly as the last original specification item with
that name whose code and name are both truthy dictates. -/
theorem C6_backfill_spec :
    (∀ dl m, (complete_project_codes dl m).length = dl.length)
    ∧ (∀ (dl : List PyDict) m i (h1 : i < dl.length)
          (h2 : i < (complete_project_codes dl m).length),
        (jTruthy (dgetD (dl.get ⟨i, h1⟩) "检验项目")
            ∧ (¬ jTruthy (dgetD (dl.get ⟨i, h1⟩) "项目代码")
                ∨ dgetD (dl.get ⟨i, h1⟩) "项目代码" = .str "")
            ∧ mContains m (dgetD (dl.get ⟨i, h1⟩) "检验项目") →
          jlookup ((complete_project_codes dl m).get ⟨i, h2⟩) "项目代码"
              = mlookup m (dgetD (dl.get ⟨i, h1⟩) "检验项目")
            ∧ ∀ k, k ≠ "项目代码" →
                jlookup ((complete_project_codes dl m).get ⟨i, h2⟩) k
                  = jlookup (dl.get ⟨i, h1⟩) k)
        ∧ (¬(jTruthy (dgetD (dl.get ⟨i, h1⟩) "检验项目")
            ∧ (¬ jTruthy (dgetD (dl.get ⟨i, h1⟩) "项目代码")
                ∨ dgetD (dl.get ⟨i, h1⟩) "项目代码" = .str "")
            ∧ mContains m (dgetD (dl.get ⟨i, h1⟩) "检验项目")) →
          (complete_project_codes dl m).get ⟨i, h2⟩ = dl.get ⟨i, h1⟩))
    ∧ (∀ dl n, mlookup (create_inspection_mapping dl) n =
        (dl.reverse.find? (fun it => cimQualifies it && (dgetD it "检验项目" == n))).map
          (fun it => dgetD it "项目代码")) := by
  refine ⟨?_, ?_, cim_lookup⟩
  · intro dl m
    simp only [complete_project_codes, List.length_map]
  · intro dl m i h1 h2
    have hget : (complete_project_codes dl m).get ⟨i, h2⟩
        = (if jTruthy (dgetD (dl.get ⟨i, h1⟩) "检验项目")
              ∧ (¬ jTruthy (dgetD (dl.get ⟨i, h1⟩) "项目代码")
                  ∨ dgetD (dl.get ⟨i, h1⟩) "项目代码" = .str "")
              ∧ mContains m (dgetD (dl.get ⟨i, h1⟩) "检验项目") then
            dset (dl.get ⟨i, h1⟩) "项目代码"
              ((mlookup m (dgetD (dl.get ⟨i, h1⟩) "检验项目")).getD .null)
          else dl.get ⟨i, h1⟩) := by
      simp only [complete_project_codes, List.get_eq_getElem, List.getElem_map]
    constructor
    · intro hcond
      rw [hget, if_pos hcond]
      obtain ⟨code, hcode⟩ := Option.isSome_iff_exists.mp
        (mContains_isSome m _ hcond.2.2)
      constructor
      · rw [jlookup_dset_same, hcode]
        rfl
      · intro k hk
        rw [jlookup_dset_other _ _ _ _ hk]
    · intro hcond
      rw [hget, if_neg hcond]

/-- C6 witness: the amended statement at concrete inputs — a record with an
empty code and known name gets the mapped code while its other fields stay
put, a record with a code present is untouched, and the duplicate-name
mapping keeps the code of the last qualifying item. -/
theorem C6_witness :
    jlookup ((complete_project_codes
        [[("项目代码", Json.str ""), ("检验项目", Json.str "x"), ("单位", Json.str "mm")]]
        [(Json.str "x", Json.str "B")]).get ⟨0, by decide⟩) "项目代码"
        = mlookup [(Json.str "x", Json.str "B")] (Json.str "x")
      ∧ (complete_project_codes [[("项目代码", Json.str "K"), ("检验项目", Json.str "x")]]
          [(Json.str "x", Json.str "B")]).get ⟨0, by decide⟩
          = [("项目代码", Json.str "K"), ("检验项目", Json.str "x")]
      ∧ mlookup (create_inspection_mapping [dupRecA, dupRecB]) (Json.str "x")
          = some (Json.str "B") := by
  refine ⟨?_, ?_, ?_⟩
  · exact (C6_backfill_spec.2.1
      [[("项目代码", Json.str ""), ("检验项目", Json.str "x"), ("单位", Json.str "mm")]]
      [(Json.str "x", Json.str "B")] 0 (by decide) (by decide)).1 (by decide) |>.1
  · exact (C6_backfill_spec.2.1
      [[("项目代码", Json.str "K"), ("检验项目", Json.str "x")]]
      [(Json.str "x", Json.str "B")] 0 (by decide) (by decide)).2 (by decide)
  · rw [C6_backfill_spec.2.2 [dupRecA, dupRecB] (Json.str "x")]
    decide


/-- Whether a value is a JSON array. -/
def jIsArr : Json → Bool
  | .arr _ => true
  | _ => false

/-- C7: every request failing validation — no file part, missing or empty
`dataList` field, invalid JSON, a non-list payload, a non-dict element, or
an element missing a required field — gets a 400 response with an error
message, for every extraction oracle alike (so no PDF parsing or extraction
is performed); once validation passes, an exception in the haze check, in
the extraction pipeline, in the silent-`None` iteration, or in the
post-processing surfaces as a 500 response carrying the exception text. -/
theorem C7_endpoint_validation :
    (∀ (jp : JsonParse) (ex : ExtractOracle) (req : ExtractRequest),
        req.hasFile = false →
        process_specification jp ex req = .badRequest "未提供PDF文件")
    ∧ (∀ jp (ex : ExtractOracle) req, req.hasFile = true →
        (req.dataList = none ∨ req.dataList = some "") →
        process_specification jp ex req = .badRequest "未提供规格表数据(JSON格式)")
    ∧ (∀ jp (ex : ExtractOracle) req ds, req.hasFile = true → req.dataList = some ds →
        ds ≠ "" → jp ds = none →
        process_specification jp ex req = .badRequest "规格表数据不是有效的JSON格式")
    ∧ (∀ jp (ex : ExtractOracle) req ds j, req.hasFile = true → req.dataList = some ds →
        ds ≠ "" → jp ds = some j → jIsArr j = false →
        process_specification jp ex req = .badRequest "规格表数据必须是列表格式")
    ∧ (∀ jp (ex : ExtractOracle) req ds items msg, req.hasFile = true →
        req.dataList = some ds → ds ≠ "" →
        jp ds = some (.arr items) → firstInvalid 0 items = some msg →
        process_specification jp ex req = .badRequest msg)
    ∧ (∀ jp (ex : ExtractOracle) req ds items e, req.hasFile = true →
        req.dataList = some ds → ds ≠ "" →
        jp ds = some (.arr items) → firstInvalid 0 items = none →
        fixProgram (remove_key_from_list_dicts (items.map toDict) "项目代码") = .error e →
        process_specification jp ex req = .serverError e)
    ∧ (∀ jp (ex : ExtractOracle) req ds items fp e, req.hasFile = true →
        req.dataList = some ds → ds ≠ "" →
        jp ds = some (.arr items) → firstInvalid 0 items = none →
        fixProgram (remove_key_from_list_dicts (items.map toDict) "项目代码") = .ok fp →
        ex (remove_key_from_list_dicts (items.map toDict) "项目代码") fp = .error e →
        process_specification jp ex req = .serverError e)
    ∧ (∀ jp (ex : ExtractOracle) req ds items fp, req.hasFile = true →
        req.dataList = some ds → ds ≠ "" →
        jp ds = some (.arr items) → firstInvalid 0 items = none →
        fixProgram (remove_key_from_list_dicts (items.map toDict) "项目代码") = .ok fp →
        ex (remove_key_from_list_dicts (items.map toDict) "项目代码") fp = .ok none →
        process_specification jp ex req = .serverError noneIterMsg)
    ∧ (∀ jp (ex : ExtractOracle) req ds items fp filled e, req.hasFile = true →
        req.dataList = some ds → ds ≠ "" →
        jp ds = some (.arr items) → firstInvalid 0 items = none →
        fixProgram (remove_key_from_list_dicts (items.map toDict) "项目代码") = .ok fp →
        ex (remove_key_from_list_dicts (items.map toDict) "项目代码") fp = .ok (some filled) →
        convert_large_numbers_to_scientific
            (complete_project_codes filled
              (create_inspection_mapping (items.map toDict))) = .error e →
        process_specification jp ex req = .serverError e) := by
  refine ⟨?_, ?_, ?_, ?_, ?_, ?_, ?_, ?_, ?_⟩
  · intro jp ex req h
    rw [process_specification, h]
    rw [if_pos (by simp)]
  · intro jp ex req h hdl
    rw [process_specification, h, if_neg (by simp)]
    rcases hdl with h2 | h2 <;> rw [h2] <;> rfl
  · intro jp ex req ds h hdl hds hjp
    rw [process_specification, h, if_neg (by simp), hdl]
    simp only [if_neg hds, hjp]
  · intro jp ex req ds j h hdl hds hjp harr
    rw [process_specification, h, if_neg (by simp), hdl]
    simp only [if_neg hds, hjp]
    cases j with
    | arr xs => rw [jIsArr] at harr; cases harr
    | null => rfl
    | bool b => rfl
    | num q => rfl
    | str t => rfl
    | obj fs => rfl
  · intro jp ex req ds items msg h hdl hds hjp hfi
    rw [process_specification, h, if_neg (by simp), hdl]
    simp only [if_neg hds, hjp, hfi]
  · intro jp ex req ds items e h hdl hds hjp hfi hfix
    rw [process_specification, h, if_neg (by simp), hdl]
    simp only [if_neg hds, hjp, hfi, hfix]
  · intro jp ex req ds items fp e h hdl hds hjp hfi hfix hex
    rw [process_specification, h, if_neg (by simp), hdl]
    simp only [if_neg hds, hjp, hfi, hfix, hex]
  · intro jp ex req ds items fp h hdl hds hjp hfi hfix hex
    rw [process_specification, h, if_neg (by simp), hdl]
    simp only [if_neg hds, hjp, hfi, hfix, hex]
  · intro jp ex req ds items fp filled e h hdl hds hjp hfi hfix hex hconv
    rw [process_specification, h, if_neg (by simp), hdl]
    simp only [if_neg hds, hjp, hfi, hfix, hex, hconv]

/-- C7 witness: the statement at concrete requests — a request without a
file part, one whose element misses required fields, and one whose
downstream extraction raises, with the expected 400 and 500 responses. -/
theorem C7_witness :
    process_specification (fun _ => none) (fun _ _ => .error "boom") ⟨false, none⟩
        = .badRequest "未提供PDF文件"
      ∧ process_specification (fun _ => some (.arr [.obj []])) (fun _ _ => .error "boom")
          ⟨true, some "[]"⟩
          = .badRequest "第1个项目缺少必需字段: ['项目代码', '检验项目', '类型', '上限', '下限', '单位']"
      ∧ process_specification
          (fun _ => some (.arr [.obj [("项目代码", .str "P"), ("检验项目", .str "厚度"),
            ("类型", .str "定量"), ("上限", .str "1"), ("下限", .str "0"), ("单位", .str "mm")]]))
          (fun _ _ => .error "boom") ⟨true, some "x"⟩
          = .serverError "boom" := by
  refine ⟨?_, ?_, ?_⟩
  · exact C7_endpoint_validation.1 (fun _ => none) (fun _ _ => .error "boom") ⟨false, none⟩ rfl
  · exact C7_endpoint_validation.2.2.2.2.1 (fun _ => some (.arr [.obj []]))
      (fun _ _ => .error "boom") ⟨true, some "[]"⟩ "[]" [.obj []] _
      rfl rfl (by decide) rfl (by decide)
  · exact C7_endpoint_validation.2.2.2.2.2.2.1
      (fun _ => some (.arr [.obj [("项目代码", .str "P"), ("检验项目", .str "厚度"),
        ("类型", .str "定量"), ("上限", .str "1"), ("下限", .str "0"), ("单位", .str "mm")]]))
      (fun _ _ => .error "boom") ⟨true, some "x"⟩ "x"
      [.obj [("项目代码", .str "P"), ("检验项目", .str "厚度"),
        ("类型", .str "定量"), ("上限", .str "1"), ("下限", .str "0"), ("单位", .str "mm")]]
      false "boom" rfl rfl (by decide) rfl (by decide) (by decide) rfl


/-! ## Whitespace-compaction invariants (for the idempotence theorem) -/

/-- No two adjacent characters of the list satisfy `bad`. -/
def noPair (bad : Char → Char → Bool) : List Char → Bool
  | a :: b :: tl => !bad a b && noPair bad (b :: tl)
  | _ => true

/-- Adjacent spaces (forbidden after space collapsing). -/
def badSS (a b : Char) : Bool := a == ' ' && b == ' '

/-- A space or tab directly before a newline (forbidden after
trailing-whitespace removal). -/
def badWN (a b : Char) : Bool := isSpTab a && (b == '\n')

/-- No three adjacent newlines (forbidden after blank-line collapsing). -/
def noTriple : List Char → Bool
  | a :: b :: c :: tl => !(a == '\n' && b == '\n' && c == '\n') && noTriple (b :: c :: tl)
  | _ => true

theorem noPair_cons_iff (bad : Char → Char → Bool) (c : Char) (l : List Char) :
    noPair bad (c :: l) = true
      ↔ (∀ h, l.head? = some h → bad c h = false) ∧ noPair bad l = true := by
  cases l with
  | nil => simp [noPair]
  | cons b tl =>
    simp only [noPair, Bool.and_eq_true, Bool.not_eq_true', List.head?_cons]
    constructor
    · rintro ⟨h1, h2⟩
      exact ⟨fun h hh => by cases hh; exact h1, h2⟩
    · rintro ⟨h1, h2⟩
      exact ⟨h1 b rfl, h2⟩

theorem noPair_tail (bad : Char → Char → Bool) (c : Char) (l : List Char)
    (h : noPair bad (c :: l) = true) : noPair bad l = true :=
  ((noPair_cons_iff bad c l).mp h).2

theorem noPair_append_right (bad : Char → Char → Bool) :
    ∀ l1 l2 : List Char, noPair bad (l1 ++ l2) = true → noPair bad l2 = true := by
  intro l1
  induction l1 with
  | nil => intro l2 h; exact h
  | cons a tl ih =>
    intro l2 h
    exact ih l2 (noPair_tail bad a (tl ++ l2) h)

theorem noPair_append_left (bad : Char → Char → Bool) :
    ∀ l1 l2 : List Char, noPair bad (l1 ++ l2) = true → noPair bad l1 = true := by
  intro l1
  induction l1 with
  | nil => intro l2 _; rfl
  | cons a tl ih =>
    intro l2 h
    rw [List.cons_append] at h
    obtain ⟨hhead, htail⟩ := (noPair_cons_iff bad a (tl ++ l2)).mp h
    rw [noPair_cons_iff]
    refine ⟨?_, ih l2 htail⟩
    intro x hx
    apply hhead
    cases tl with
    | nil => cases hx
    | cons b tl2 =>
      rw [List.cons_append, List.head?_cons]
      rw [List.head?_cons] at hx
      exact hx

theorem noTriple_cons_iff (c : Char) (l : List Char) :
    noTriple (c :: l) = true
      ↔ (¬(c = '\n' ∧ l.take 2 = ['\n', '\n'])) ∧ noTriple l = true := by
  cases l with
  | nil => simp [noTriple]
  | cons b tl =>
    cases tl with
    | nil =>
      simp [noTriple, List.take]
    | cons d tl2 =>
      simp only [noTriple, Bool.and_eq_true, Bool.not_eq_true', List.take]
      constructor
      · rintro ⟨h1, h2⟩
        refine ⟨?_, h2⟩
        rintro ⟨hc, htake⟩
        injection htake with hb htake2
        injection htake2 with hd
        rw [hc, hb, hd] at h1
        simp at h1
      · rintro ⟨h1, h2⟩
        refine ⟨?_, h2⟩
        by_cases hc : c = '\n'
        · by_cases hb : b = '\n'
          · by_cases hd : d = '\n'
            · exact absurd ⟨hc, by rw [hb, hd]⟩ h1
            · simp [hd]
          · simp [hb]
        · simp [hc]

theorem noTriple_tail (c : Char) (l : List Char)
    (h : noTriple (c :: l) = true) : noTriple l = true :=
  ((noTriple_cons_iff c l).mp h).2

theorem noTriple_append_right :
    ∀ l1 l2 : List Char, noTriple (l1 ++ l2) = true → noTriple l2 = true := by
  intro l1
  induction l1 with
  | nil => intro l2 h; exact h
  | cons a tl ih => intro l2 h; exact ih l2 (noTriple_tail a (tl ++ l2) h)

theorem noTriple_append_left :
    ∀ l1 l2 : List Char, noTriple (l1 ++ l2) = true → noTriple l1 = true := by
  intro l1
  induction l1 with
  | nil => intro l2 _; rfl
  | cons a tl ih =>
    intro l2 h
    rw [List.cons_append] at h
    obtain ⟨hhead, htail⟩ := (noTriple_cons_iff a (tl ++ l2)).mp h
    rw [noTriple_cons_iff]
    refine ⟨?_, ih l2 htail⟩
    rintro ⟨hc, htake⟩
    apply hhead
    refine ⟨hc, ?_⟩
    have hlen : 2 ≤ tl.length := by
      have hlen2 := congrArg List.length htake
      simp at hlen2
      omega
    rw [List.take_append_of_le_length hlen]
    exact htake


theorem spacesL_head_space : ∀ l, (spacesL l).head? = some ' ' → l.head? = some ' ' := by
  intro l
  induction l with
  | nil => intro h; cases h
  | cons c rest ih =>
    rw [spacesL]
    split
    · rename_i hc
      intro _
      rw [List.head?_cons, hc.1]
    · intro h
      rw [List.head?_cons] at h ⊢
      exact h

theorem noPair_spacesL : ∀ l, noPair badSS (spacesL l) = true := by
  intro l
  induction l with
  | nil => rfl
  | cons c rest ih =>
    rw [spacesL]
    split
    · exact ih
    · rename_i hc
      rw [noPair_cons_iff]
      refine ⟨?_, ih⟩
      intro h hh
      by_cases hcsp : c = ' '
      · by_cases hhsp : h = ' '
        · exfalso
          apply hc
          refine ⟨hcsp, ?_⟩
          apply spacesL_head_space rest
          rw [hh, hhsp]
        · simp [badSS, hhsp]
      · simp [badSS, hcsp]

theorem spacesL_id : ∀ l, noPair badSS l = true → spacesL l = l := by
  intro l
  induction l with
  | nil => intro _; rfl
  | cons c rest ih =>
    intro h
    obtain ⟨hhead, htail⟩ := (noPair_cons_iff _ _ _).mp h
    rw [spacesL]
    have hcond : ¬(c = ' ' ∧ rest.head? = some ' ') := by
      rintro ⟨hc, hh⟩
      have hb := hhead ' ' hh
      rw [badSS, hc] at hb
      simp at hb
    rw [if_neg hcond, ih htail]

theorem trailL_head_nl : ∀ l : List Char,
    (l.dropWhile isSpTab).head? = some '\n' → (trailL l).head? = some '\n' := by
  intro l
  induction l with
  | nil => intro h; cases h
  | cons c rest ih =>
    intro h
    rw [trailL]
    by_cases hsp : isSpTab c = true
    · rw [List.dropWhile_cons_of_pos hsp] at h
      rw [if_pos ⟨hsp, h⟩]
      exact ih h
    · rw [List.dropWhile_cons_of_neg hsp] at h
      rw [List.head?_cons] at h
      rw [if_neg (fun hcond => hsp hcond.1), List.head?_cons]
      exact h

theorem trailL_head_nl_rev : ∀ l : List Char,
    (trailL l).head? = some '\n' → (l.dropWhile isSpTab).head? = some '\n' := by
  intro l
  induction l with
  | nil => intro h; cases h
  | cons c rest ih =>
    rw [trailL]
    split
    · rename_i hcond
      intro h
      rw [List.dropWhile_cons_of_pos hcond.1]
      exact hcond.2
    · rename_i hcond
      intro h
      rw [List.head?_cons] at h
      injection h with hc
      have hsp : isSpTab c = false := by
        rw [hc]
        decide
      rw [List.dropWhile_cons_of_neg (by rw [hsp]; simp), List.head?_cons, hc]

theorem trailL_head : ∀ l : List Char,
    (trailL l).head? = l.head? ∨ (trailL l).head? = some '\n' := by
  intro l
  cases l with
  | nil => left; rfl
  | cons c rest =>
    rw [trailL]
    by_cases hcond : isSpTab c = true ∧ (rest.dropWhile isSpTab).head? = some '\n'
    · rw [if_pos hcond]
      right
      exact trailL_head_nl rest hcond.2
    · rw [if_neg hcond]
      left
      rfl

theorem dropWhile_head_nl_of_noPair : ∀ l : List Char, noPair badWN l = true →
    (l.dropWhile isSpTab).head? = some '\n' → l.head? = some '\n' := by
  intro l
  induction l with
  | nil => intro _ h; cases h
  | cons c rest ih =>
    intro h1 h2
    by_cases hsp : isSpTab c = true
    · rw [List.dropWhile_cons_of_pos hsp] at h2
      obtain ⟨hhead, htail⟩ := (noPair_cons_iff _ _ _).mp h1
      have hr := ih htail h2
      have hb := hhead '\n' hr
      rw [badWN, hsp] at hb
      simp at hb
    · rw [List.dropWhile_cons_of_neg hsp] at h2
      exact h2

theorem trailL_id : ∀ l, noPair badWN l = true → trailL l = l := by
  intro l
  induction l with
  | nil => intro _; rfl
  | cons c rest ih =>
    intro h
    obtain ⟨hhead, htail⟩ := (noPair_cons_iff _ _ _).mp h
    rw [trailL]
    have hcond : ¬(isSpTab c = true ∧ (rest.dropWhile isSpTab).head? = some '\n') := by
      rintro ⟨hsp, hdw⟩
      have hr := dropWhile_head_nl_of_noPair rest htail hdw
      have hb := hhead '\n' hr
      rw [badWN, hsp] at hb
      simp at hb
    rw [if_neg hcond, ih htail]

theorem noPair_trailL : ∀ l, noPair badWN (trailL l) = true := by
  intro l
  induction l with
  | nil => rfl
  | cons c rest ih =>
    rw [trailL]
    split
    · exact ih
    · rename_i hcond
      rw [noPair_cons_iff]
      refine ⟨?_, ih⟩
      intro h hh
      by_cases hsp : isSpTab c = true
      · by_cases hnl : h = '\n'
        · exfalso
          apply hcond
          refine ⟨hsp, ?_⟩
          apply trailL_head_nl_rev rest
          rw [hh, hnl]
        · simp [badWN, hnl]
      · simp [badWN, hsp]

theorem trailL_noPair_preserve (bad : Char → Char → Bool)
    (hb : ∀ c, bad c '\n' = false) :
    ∀ l, noPair bad l = true → noPair bad (trailL l) = true := by
  intro l
  induction l with
  | nil => intro _; rfl
  | cons c rest ih =>
    intro h
    obtain ⟨hhead, htail⟩ := (noPair_cons_iff _ _ _).mp h
    rw [trailL]
    split
    · exact ih htail
    · rw [noPair_cons_iff]
      refine ⟨?_, ih htail⟩
      intro x hx
      rcases trailL_head rest with hh | hh
      · exact hhead x (by rw [← hh]; exact hx)
      · have hxnl : x = '\n' := by
          rw [hx] at hh
          injection hh
        rw [hxnl]
        exact hb c


theorem take2_iff (l : List Char) :
    l.take 2 = ['\n', '\n'] ↔ ∃ tl, l = '\n' :: '\n' :: tl := by
  cases l with
  | nil => simp
  | cons b tl =>
    cases tl with
    | nil => simp [List.take]
    | cons d tl2 =>
      simp [List.take]

theorem blankL_head : ∀ l : List Char, (blankL l).head? = l.head? := by
  intro l
  induction l with
  | nil => rfl
  | cons c rest ih =>
    rw [blankL]
    split
    · rename_i hcond
      rw [ih]
      obtain ⟨tl, htl⟩ := (take2_iff rest).mp hcond.2
      rw [htl, List.head?_cons, List.head?_cons, hcond.1]
    · rw [List.head?_cons, List.head?_cons]

theorem blankL_take2 : ∀ l : List Char,
    (blankL l).take 2 = ['\n', '\n'] → l.take 2 = ['\n', '\n'] := by
  intro l
  induction l with
  | nil => intro h; cases h
  | cons c rest ih =>
    rw [blankL]
    split
    · rename_i hcond
      intro _
      obtain ⟨tl, htl⟩ := (take2_iff rest).mp hcond.2
      rw [(take2_iff (c :: rest)).mpr ⟨'\n' :: tl, by rw [hcond.1, htl]⟩]
    · intro h
      obtain ⟨tl, htl⟩ := (take2_iff (c :: blankL rest)).mp h
      have hc : c = '\n' := by
        have := congrArg List.head? htl
        rw [List.head?_cons, List.head?_cons] at this
        injection this
      have hr : (blankL rest).head? = some '\n' := by
        have := congrArg List.tail htl
        rw [List.tail_cons, List.tail_cons] at this
        rw [this, List.head?_cons]
      rw [blankL_head rest] at hr
      cases rest with
      | nil => cases hr
      | cons d tl2 =>
        rw [List.head?_cons] at hr
        injection hr with hd
        exact (take2_iff _).mpr ⟨tl2, by rw [hc, hd]⟩

theorem noTriple_blankL : ∀ l, noTriple (blankL l) = true := by
  intro l
  induction l with
  | nil => rfl
  | cons c rest ih =>
    rw [blankL]
    split
    · exact ih
    · rename_i hcond
      rw [noTriple_cons_iff]
      refine ⟨?_, ih⟩
      rintro ⟨hc, htake⟩
      exact hcond ⟨hc, blankL_take2 rest htake⟩

theorem blankL_id : ∀ l, noTriple l = true → blankL l = l := by
  intro l
  induction l with
  | nil => intro _; rfl
  | cons c rest ih =>
    intro h
    obtain ⟨hhead, htail⟩ := (noTriple_cons_iff _ _).mp h
    rw [blankL, if_neg hhead, ih htail]

theorem blankL_noPair_preserve (bad : Char → Char → Bool) :
    ∀ l, noPair bad l = true → noPair bad (blankL l) = true := by
  intro l
  induction l with
  | nil => intro _; rfl
  | cons c rest ih =>
    intro h
    obtain ⟨hhead, htail⟩ := (noPair_cons_iff _ _ _).mp h
    rw [blankL]
    split
    · exact ih htail
    · rw [noPair_cons_iff]
      refine ⟨?_, ih htail⟩
      intro x hx
      rw [blankL_head rest] at hx
      exact hhead x hx

theorem dropWhile_head_false {α} (p : α → Bool) :
    ∀ (l : List α) (h : α) (tl : List α), l.dropWhile p = h :: tl → p h = false := by
  intro l
  induction l with
  | nil => intro h tl hh; cases hh
  | cons c rest ih =>
    intro h tl hh
    by_cases pc : p c = true
    · rw [List.dropWhile_cons_of_pos pc] at hh
      exact ih h tl hh
    · rw [List.dropWhile_cons_of_neg pc] at hh
      injection hh with h1 _
      rw [← h1]
      simpa using pc

theorem dropWhile_eq_self {α} (p : α → Bool) (l : List α)
    (h : ∀ x tl, l = x :: tl → p x = false) : l.dropWhile p = l := by
  cases l with
  | nil => rfl
  | cons c rest => exact List.dropWhile_cons_of_neg (by rw [h c rest rfl]; simp)

theorem dropWhile_idem {α} (p : α → Bool) (l : List α) :
    (l.dropWhile p).dropWhile p = l.dropWhile p := by
  cases hd : l.dropWhile p with
  | nil => rfl
  | cons h tl =>
    exact List.dropWhile_cons_of_neg (by rw [dropWhile_head_false p l h tl hd]; simp)

theorem stripL_getLast (l : List Char) (h : Char) (tl : List Char)
    (hh : ((l.dropWhile isPyWs).reverse.dropWhile isPyWs).reverse = h :: tl) :
    isPyWs h = false := by
  have hh2 : (((l.dropWhile isPyWs).reverse.dropWhile isPyWs).reverse).head? = some h := by
    rw [hh, List.head?_cons]
  rw [List.head?_reverse] at hh2
  have hrne : (l.dropWhile isPyWs).reverse.dropWhile isPyWs ≠ [] := by
    intro hc
    rw [hc] at hh2
    cases hh2
  have hxr : (l.dropWhile isPyWs).reverse
      = (l.dropWhile isPyWs).reverse.takeWhile isPyWs
        ++ (l.dropWhile isPyWs).reverse.dropWhile isPyWs := by
    rw [List.takeWhile_append_dropWhile]
  have hlast : ((l.dropWhile isPyWs).reverse).getLast?
      = ((l.dropWhile isPyWs).reverse.dropWhile isPyWs).getLast? := by
    conv_lhs => rw [hxr]
    exact List.getLast?_append_of_ne_nil _ hrne
  rw [List.getLast?_reverse] at hlast
  have hfin : (l.dropWhile isPyWs).head? = some h := by
    rw [hlast]
    exact hh2
  cases hdl : l.dropWhile isPyWs with
  | nil => rw [hdl] at hfin; cases hfin
  | cons h0 tl0 =>
    rw [hdl, List.head?_cons] at hfin
    injection hfin with hhh
    rw [← hhh]
    exact dropWhile_head_false isPyWs l h0 tl0 hdl

theorem stripL_idem (l : List Char) : stripL (stripL l) = stripL l := by
  rw [stripL, stripL]
  have hstep1 : (((l.dropWhile isPyWs).reverse.dropWhile isPyWs).reverse).dropWhile isPyWs
      = ((l.dropWhile isPyWs).reverse.dropWhile isPyWs).reverse := by
    apply dropWhile_eq_self
    intro x tl hh
    exact stripL_getLast l x tl hh
  rw [hstep1, List.reverse_reverse, dropWhile_idem]

theorem noPair_dropWhile (bad : Char → Char → Bool) (p : Char → Bool)
    (l : List Char) (h : noPair bad l = true) : noPair bad (l.dropWhile p) = true := by
  apply noPair_append_right bad (l.takeWhile p)
  rw [List.takeWhile_append_dropWhile]
  exact h

theorem noPair_reverse_split (bad : Char → Char → Bool) (p : Char → Bool)
    (l : List Char) (h : noPair bad l = true) :
    noPair bad (l.reverse.dropWhile p).reverse = true := by
  apply noPair_append_left bad _ (l.reverse.takeWhile p).reverse
  have hsplit : l = (l.reverse.dropWhile p).reverse ++ (l.reverse.takeWhile p).reverse := by
    conv_lhs => rw [← List.reverse_reverse l,
      ← List.takeWhile_append_dropWhile p l.reverse, List.reverse_append]
  rw [← hsplit]
  exact h

theorem noPair_stripL (bad : Char → Char → Bool) (l : List Char)
    (h : noPair bad l = true) : noPair bad (stripL l) = true := by
  rw [stripL]
  exact noPair_reverse_split bad isPyWs _ (noPair_dropWhile bad isPyWs l h)

theorem noTriple_dropWhile (p : Char → Bool) (l : List Char)
    (h : noTriple l = true) : noTriple (l.dropWhile p) = true := by
  apply noTriple_append_right (l.takeWhile p)
  rw [List.takeWhile_append_dropWhile]
  exact h

theorem noTriple_reverse_split (p : Char → Bool) (l : List Char)
    (h : noTriple l = true) : noTriple (l.reverse.dropWhile p).reverse = true := by
  apply noTriple_append_left _ (l.reverse.takeWhile p).reverse
  have hsplit : l = (l.reverse.dropWhile p).reverse ++ (l.reverse.takeWhile p).reverse := by
    conv_lhs => rw [← List.reverse_reverse l,
      ← List.takeWhile_append_dropWhile p l.reverse, List.reverse_append]
  rw [← hsplit]
  exact h

theorem noTriple_stripL (l : List Char) (h : noTriple l = true) :
    noTriple (stripL l) = true := by
  rw [stripL]
  exact noTriple_reverse_split isPyWs _ (noTriple_dropWhile isPyWs l h)


/-- C2 counterexample: `optimize_markdown_content` is not idempotent. The image
regex is applied once, left to right; on `"!![]()[]()"` it removes the inner
`![]()` starting at the second `!`, and the leftover characters re-form the
image pattern `![]()` , which a second application then removes. -/
theorem C2_counterexample :
    optimize_markdown_content soupNone (optimize_markdown_content soupNone "!![]()[]()")
      ≠ optimize_markdown_content soupNone "!![]()[]()" := by decide

/-- C2 (amended): on any output of `optimize_markdown_content` that the image
removal and the table substitution leave fixed, a second application of
`optimize_markdown_content` changes nothing: the whitespace-collapsing passes
and the final strip are idempotent, so non-idempotence can only come from the
image regex or the table flattening re-forming a pattern. -/
theorem C2_optimize_idempotent (soup : SoupOracle) (s : String)
    (h1 : remImgL (optimize_markdown_content soup s).toList
      = (optimize_markdown_content soup s).toList)
    (h2 : tableSubL soup (optimize_markdown_content soup s).toList
      = (optimize_markdown_content soup s).toList) :
    optimize_markdown_content soup (optimize_markdown_content soup s)
      = optimize_markdown_content soup s := by
  have htl : (optimize_markdown_content soup s).toList
      = stripL (blankL (trailL (spacesL (tableSubL soup (remImgL s.toList))))) := rfl
  have hbn : ∀ c, badSS c '\n' = false := by
    intro c
    have h0 : (('\n' : Char) == ' ') = false := by decide
    rw [badSS, h0, Bool.and_false]
  have hP1 : noPair badSS (optimize_markdown_content soup s).toList = true := by
    rw [htl]
    exact noPair_stripL badSS _ (blankL_noPair_preserve badSS _
      (trailL_noPair_preserve badSS hbn _ (noPair_spacesL _)))
  have hP2 : noPair badWN (optimize_markdown_content soup s).toList = true := by
    rw [htl]
    exact noPair_stripL badWN _ (blankL_noPair_preserve badWN _ (noPair_trailL _))
  have hP3 : noTriple (optimize_markdown_content soup s).toList = true := by
    rw [htl]
    exact noTriple_stripL _ (noTriple_blankL _)
  calc optimize_markdown_content soup (optimize_markdown_content soup s)
      = String.mk (stripL (blankL (trailL (spacesL (tableSubL soup
          (remImgL (optimize_markdown_content soup s).toList)))))) := rfl
    _ = String.mk (stripL (blankL (trailL (spacesL
          (optimize_markdown_content soup s).toList)))) := by rw [h1, h2]
    _ = String.mk (stripL (optimize_markdown_content soup s).toList) := by
          rw [spacesL_id _ hP1, trailL_id _ hP2, blankL_id _ hP3]
    _ = String.mk (optimize_markdown_content soup s).toList := by
          rw [htl, stripL_idem]
    _ = optimize_markdown_content soup s := rfl

/-- C2 witness: the amended idempotence theorem applied to the concrete input
`"a  b"`, whose compacted form contains no image or table pattern. -/
theorem C2_witness :
    optimize_markdown_content soupNone (optimize_markdown_content soupNone "a  b")
      = optimize_markdown_content soupNone "a  b" :=
  C2_optimize_idempotent soupNone "a  b" (by decide) (by decide)

end QMS

example : QMS.ratMk 6 4 = QMS.ratMk 3 2 := by decide
example : (QMS.ratMk (-6) 4).num = -3 := by decide
example : QMS.ratMk 8 4 = 2 := by decide
example : QMS.ratMk (-6) 4 = -(3 / 2) := by norm_num [QMS.ratMk_eq_div]
example : QMS.rAdd (QMS.ratMk 1 2) (QMS.ratMk 1 3) = QMS.ratMk 5 6 := by decide
example : QMS.roundHalfEven (QMS.ratMk 5 2) = 2 := by decide
example : QMS.roundHalfEven (QMS.ratMk 7 2) = 4 := by decide
example : QMS.roundHalfEven (QMS.ratMk 49 10) = 5 := by decide
example : QMS.digCount 999 = 3 := by decide
example : QMS.natDigits 120 = ['1', '2', '0'] := by decide
example : QMS.pyFloatOfString "1.0" = some (.finite 1) := by decide
example : QMS.pyFloatOfString "∞" = none := by decide
example : QMS.pyFloatOfString " -2.5e3 " = some (.finite (QMS.ratMk (-2500) 1)) := by decide
example : QMS.pyFloatOfString "Inf" = some .inf := by decide
example : QMS.pyFloatOfString "" = none := by decide
example : QMS.pyFloatOfString "1e999" = some .inf := by decide
example : QMS.pyFloatOfString "nan" = some .nan := by decide
example : QMS.pyFloatOfString "abc" = none := by decide
example : QMS.pyFloatOfString "1.2.3" = none := by decide
example : QMS.formatE2 (.finite (QMS.ratMk 1234567 10)) = "1.23E+05" := by decide
example : QMS.formatE2 (.finite (QMS.ratMk 999999 1)) = "1.00E+06" := by decide
example : QMS.formatE2 (.finite (QMS.ratMk (-123500) 1)) = "-1.24E+05" := by decide
example : QMS.formatE2 .inf = "INF" := by decide
example : QMS.isSciE2 "1.23E+05" = true := by decide
example : QMS.isSciE2 "-1.24E+123" = true := by decide
example : QMS.isSciE2 "INF" = false := by decide

example : QMS.values_equal (.pstr "1") (.pstr "1.0") = true := by decide
example : QMS.values_equal (.pstr "无穷大") (.pstr "∞") = true := by decide
example : QMS.values_equal .pna (.pstr "x") = false := by decide
example : QMS.optimize_markdown_content QMS.soupNone "a   b" = "a b" := by decide
example : QMS.optimize_markdown_content QMS.soupNone "!![]()[]()" = "![]()" := by decide
example : QMS.optimize_markdown_content QMS.soupNone "![c](d)x" = "x" := by decide
example : QMS.optimize_markdown_content QMS.soupNone "a \n\n\n\nb  " = "a\n\nb" := by decide
example : QMS.optimize_markdown_content (fun _ => some [["a","b"],["c"],[]]) "<table></table>" = "|a|b|\n|---|---|\n|c|" := by decide
example : QMS.optimize_markdown_content (fun _ => some [[],["c"]]) "<table>xx</table>" = "|c|" := by decide

example : QMS.stream_and_parse_sse_response (fun _ => none) 500 ["data: x"] = "" := by decide
example : QMS.sseAccum (fun _ => some (.obj [("choices", .arr [.obj [("delta", .obj [("content", .str "hi")])]])]))
    ["data: {}", "data: [DONE]", "data: ig"] "" = .ok "hi" := by decide
example : QMS.process_content (fun _ => none) "<think>zz</think> no brackets" = none := by decide
example : QMS.findBracketRegion "ab[c[d]e]f]".toList = some "[c[d]e]".toList := by decide
example : QMS.findBracketRegion "[a[b]".toList = some "[b]".toList := by decide
example : QMS.process_specification (fun _ => none) (fun _ _ => .error "x") ⟨false, none⟩ = .badRequest "未提供PDF文件" := by decide
example : QMS.process_specification (fun _ => some (.arr [.obj []])) (fun _ _ => .error "x") ⟨true, some "[{}]"⟩
    = .badRequest "第1个项目缺少必需字段: ['项目代码', '检验项目', '类型', '上限', '下限', '单位']" := by decide
